import Mathlib

/-!
# PID controller library (`lib/pid`): embedding and verified properties

The definitions below follow `lib/pid/src/PID.cpp` and `lib/pid/include/PID.h`
function by function.

The functions are embedded twice, the second time in the namespace `Binary32`.

* In the first embedding (names as in the source: `compute`, `computeIPath`, ...)
  `float` values are exact rationals (`ℚ`): rounding, infinities and NaN are not
  part of it. It is used for the statements on which formula a call evaluates:
  which operands, which `dt`, which values are stored.
* In the second embedding (`Binary32.compute`, ...) `float` is IEEE binary32,
  with rounding to nearest, infinities and NaN. It is used for the statements
  on the range of the results, on their order and on values that stay pinned,
  which depend on the rounding of the bounds and on non-finite values.
* `uint32_t` gains are natural numbers, `int32_t` bounds and the `int64_t`
  tick count `dt` are integers; they are only ever read and converted to
  `float`, so no wrap-around can occur in the code that is modelled.
* The mutex is not modelled: every public operation is one atomic state
  transformer.
* The object state is passed explicitly; a member function that writes a
  member returns the new object next to its result.
* In the first embedding a `float` division is a checked operation (`fdiv`)
  that fails on a zero divisor, so a division that the code could reach with
  `dt = 0` would make `compute` return `none`.
-/

set_option linter.dupNamespace false

namespace PID

/-- Modelled from the spec: the `Timer` class behind the member `m_timer` is not
part of `lib/pid`. The spec asks for start/stop/reset/elapsed-duration
operations where `reset()` zeroes the accumulated time and a timer that was
never started reads zero, and where the elapsed time after `stop()` is the time
since the last `start()`. `time` is the elapsed time of the current measurement
in ticks. -/
structure Timer where
  running : Bool
  time : Int
deriving DecidableEq, Repr

/-- A timer as it is default-constructed: stopped, nothing accumulated. -/
def Timer.fresh : Timer := { running := false, time := 0 }

/-- Model of `Timer::start()`: the measurement restarts: the timer runs and its
elapsed time counts from this call. -/
def Timer.start (_t : Timer) : Timer := { running := true, time := 0 }

/-- Model of `Timer::stop()`: the timer no longer runs; the elapsed time is kept. -/
def Timer.stop (t : Timer) : Timer := { t with running := false }

/-- Model of `Timer::reset()`: the elapsed time is zeroed. -/
def Timer.reset (t : Timer) : Timer := { t with time := 0 }

/-- Model of `Timer::elapsed_time().count()`. -/
def Timer.elapsed_time (t : Timer) : Int := t.time

/-- Passage of `d` ticks of wall-clock time: only a running timer accumulates. -/
def Timer.advance (t : Timer) (d : Nat) : Timer :=
  if t.running then { t with time := t.time + d } else t

/-- The data members of the controller class (`PID.h`, private section),
without the mutex. -/
structure Pid where
  m_timer : Timer
  m_PGain : Nat
  m_IGain : Nat
  m_DGain : Nat
  m_lowerBound : Int
  m_upperBound : Int
  m_deadzone : ℚ
  m_IPath : ℚ
  m_pastError : ℚ
  m_pastPV : ℚ
  m_antiKickback : Bool
deriving DecidableEq, Repr

/-- The constructor `PID::PID` (PID.cpp lines 5-16); `m_timer` is default-constructed. -/
def PID (proportionalGain intregralGain derivativeGain : Nat) (lowerBound upperBound : Int)
    (deadzone : ℚ) (antiKickback : Bool) : Pid :=
  { m_timer := Timer.fresh
    m_PGain := proportionalGain
    m_IGain := intregralGain
    m_DGain := derivativeGain
    m_lowerBound := lowerBound
    m_upperBound := upperBound
    m_deadzone := deadzone
    m_antiKickback := antiKickback
    m_IPath := 0
    m_pastError := 0
    m_pastPV := 0 }

/-- `PID::updateProportionalGain` (lines 18-21). -/
def updateProportionalGain (self : Pid) (p : Nat) : Pid := { self with m_PGain := p }

/-- `PID::updateIntegralGain` (lines 23-26). -/
def updateIntegralGain (self : Pid) (i : Nat) : Pid := { self with m_IGain := i }

/-- `PID::updateDerivativeGain` (lines 28-31). -/
def updateDerivativeGain (self : Pid) (d : Nat) : Pid := { self with m_DGain := d }

/-- `PID::updateDeadzone` (lines 33-36). -/
def updateDeadzone (self : Pid) (deadzone : ℚ) : Pid := { self with m_deadzone := deadzone }

/-- `PID::reportProportionalGain` (lines 38-41). -/
def reportProportionalGain (self : Pid) : Nat := self.m_PGain

/-- `PID::reportIntegralGain` (lines 43-46). -/
def reportIntegralGain (self : Pid) : Nat := self.m_IGain

/-- `PID::reportDerivativeGain` (lines 48-51). -/
def reportDerivativeGain (self : Pid) : Nat := self.m_DGain

/-- `PID::reportDeadzone` (lines 53-56). -/
def reportDeadzone (self : Pid) : ℚ := self.m_deadzone

/-- `PID::reset` (lines 58-65). -/
def reset (self : Pid) : Pid :=
  { self with
    m_IPath := 0
    m_pastError := 0
    m_pastPV := 0
    m_timer := self.m_timer.stop.reset }

/-- `std::clamp(v, lo, hi)` as the standard library of the GNU toolchain
evaluates it, `std::min(std::max(v, lo), hi)`, with
`std::max(a, b) = (a < b) ? b : a` and `std::min(a, b) = (b < a) ? b : a`.
The language standard requires `!(hi < lo)` of the caller and prescribes the
value `clampSpec` for such arguments; the two agree there. -/
def clamp (v lo hi : ℚ) : ℚ :=
  if hi < (if v < lo then lo else v) then hi else (if v < lo then lo else v)

/-- The clamp of the specification and of the language standard:
`lo` if `v < lo`, `hi` if `hi < v`, otherwise `v`. -/
def clampSpec (v lo hi : ℚ) : ℚ := if v < lo then lo else if hi < v then hi else v

/-- The `float` division operator, failing on a zero divisor. -/
def fdiv (a b : ℚ) : Option ℚ := if b = 0 then none else some (a / b)

/-- `PID::computePPath` (lines 68-70). -/
def computePPath (self : Pid) (error : ℚ) : ℚ := error * self.m_PGain

/-- `PID::computeIPath` (lines 73-77): returns `m_IPath` and the object with the
accumulator updated. -/
def computeIPath (self : Pid) (error : ℚ) (dt : Int) : ℚ × Pid :=
  let m_IPath := self.m_IPath + error * dt * self.m_IGain
  let m_IPath := clamp m_IPath self.m_lowerBound self.m_upperBound
  (m_IPath, { self with m_IPath := m_IPath })

/-- `PID::computeDPathOnError` (lines 80-86). -/
def computeDPathOnError (self : Pid) (error : ℚ) (dt : Int) : Option ℚ :=
  if dt ≠ 0 then fdiv (self.m_DGain * (error - self.m_pastError)) dt else some 0

/-- `PID::computeDPathOnPV` (lines 88-94). -/
def computeDPathOnPV (self : Pid) (processVariable : ℚ) (dt : Int) : Option ℚ :=
  if dt ≠ 0 then fdiv (self.m_DGain * (processVariable - self.m_pastPV)) dt else some 0

/-- What one call of `compute` produces: the returned value `paths`, the object
on return (`self`), and the values of the locals of the call: `error` after the
deadzone test, `dt`, and the three summands of `paths` before the final clamp. -/
structure Computed where
  error : ℚ
  dt : Int
  pPath : ℚ
  iPath : ℚ
  dPath : ℚ
  paths : ℚ
  self : Pid
deriving DecidableEq, Repr

/-- `PID::compute` (lines 96-115). The arguments of the two derivative helpers
are passed exactly as line 108 passes them. -/
def compute (self : Pid) (setPoint processVariable : ℚ) : Option Computed :=
  let error := setPoint - processVariable
  let error := if |error| < self.m_deadzone then 0 else error
  let self := { self with m_timer := self.m_timer.stop }
  let dt := self.m_timer.elapsed_time
  let pPath := computePPath self error
  let iPath := (computeIPath self error dt).1
  let self := (computeIPath self error dt).2
  match (if self.m_antiKickback then computeDPathOnPV self error dt
         else computeDPathOnError self processVariable dt) with
  | none => none
  | some dPath =>
    let paths := pPath + iPath + dPath
    let paths := clamp paths self.m_lowerBound self.m_upperBound
    some
      { error := error
        dt := dt
        pPath := pPath
        iPath := iPath
        dPath := dPath
        paths := paths
        self := { self with
                  m_pastError := error
                  m_pastPV := processVariable
                  m_timer := self.m_timer.start } }

/-- The post-deadzone error of a call (lines 98-101), as a closed expression. -/
def errorOf (self : Pid) (setPoint processVariable : ℚ) : ℚ :=
  if |setPoint - processVariable| < self.m_deadzone then 0 else setPoint - processVariable

/-- The accumulator after `computeIPath`, as a closed expression. -/
def iPathOf (self : Pid) (error : ℚ) (dt : Int) : ℚ :=
  clamp (self.m_IPath + error * dt * self.m_IGain) self.m_lowerBound self.m_upperBound

/-- The derivative summand selected on line 108, as a closed expression. -/
def dPathOf (self : Pid) (error processVariable : ℚ) (dt : Int) : ℚ :=
  if dt = 0 then 0
  else if self.m_antiKickback then self.m_DGain * (error - self.m_pastPV) / dt
  else self.m_DGain * (processVariable - self.m_pastError) / dt

/-- Passage of `d` ticks of wall-clock time between two calls on the controller. -/
def elapse (self : Pid) (d : Nat) : Pid := { self with m_timer := self.m_timer.advance d }

/-! ## The `float` type of the target: IEEE binary32

The functions of `PID.cpp` are embedded a second time below (namespace
`Binary32`), with `float` as binary32: every conversion from an integer and
every arithmetic operation is rounded to the nearest value of the format (ties
to even), a result of magnitude `2 ^ 128` or more is an infinity, and NaN is a
value. The sign of a zero is not modelled (no comparison depends on it).
Statements that depend on the rounding of the bounds or on non-finite values
are made on this embedding. -/

/-- A value of type `float`: a finite number, an infinity or NaN. The finite
values of the format are those that `round32` leaves unchanged (`isFloat`). -/
inductive F32 where
  | fin (q : ℚ)
  | pinf
  | ninf
  | nan
deriving DecidableEq, Repr

/-- The integer nearest to `x`, the even one of the two when `x` is half-way. -/
def roundEven (x : ℚ) : Int :=
  if x - ⌊x⌋ < 1 / 2 then ⌊x⌋
  else if 1 / 2 < x - ⌊x⌋ then ⌊x⌋ + 1
  else if ⌊x⌋ % 2 = 0 then ⌊x⌋ else ⌊x⌋ + 1

/-- The exponent of the unit in the last place of binary32 at magnitude `a`: 24
significant bits, and `2 ^ (-149)` for subnormal magnitudes. -/
def ulpExp (a : ℚ) : Int := max (Int.log 2 a - 23) (-149)

/-- The magnitude `a` rounded to a multiple of its unit in the last place. -/
def roundMag (a : ℚ) : ℚ := roundEven (a / 2 ^ ulpExp a) * 2 ^ ulpExp a

/-- Rounding of a rational to binary32, round-to-nearest-even, overflowing to
an infinity. -/
def round32 (q : ℚ) : F32 :=
  if 2 ^ 128 ≤ roundMag |q| then (if 0 ≤ q then F32.pinf else F32.ninf)
  else F32.fin (if 0 ≤ q then roundMag |q| else -roundMag |q|)

/-- The `<` of `float`: false whenever an operand is NaN. -/
def F32.lt : F32 → F32 → Bool
  | fin a, fin b => decide (a < b)
  | fin _, pinf => true
  | ninf, fin _ => true
  | ninf, pinf => true
  | _, _ => false

/-- The `<=` of `float`: false whenever an operand is NaN. -/
def F32.le : F32 → F32 → Bool
  | fin a, fin b => decide (a ≤ b)
  | fin _, pinf => true
  | ninf, fin _ => true
  | ninf, pinf => true
  | pinf, pinf => true
  | ninf, ninf => true
  | _, _ => false

/-- Whether a value belongs to the format. -/
def F32.isFloat : F32 → Bool
  | fin q => decide (round32 q = fin q)
  | _ => true

/-- The `+` of `float`. -/
def F32.add : F32 → F32 → F32
  | fin a, fin b => round32 (a + b)
  | fin _, pinf => pinf
  | fin _, ninf => ninf
  | pinf, fin _ => pinf
  | pinf, pinf => pinf
  | ninf, fin _ => ninf
  | ninf, ninf => ninf
  | _, _ => nan

/-- The `-` of `float`. -/
def F32.sub : F32 → F32 → F32
  | fin a, fin b => round32 (a - b)
  | fin _, pinf => ninf
  | fin _, ninf => pinf
  | pinf, fin _ => pinf
  | pinf, ninf => pinf
  | ninf, fin _ => ninf
  | ninf, pinf => ninf
  | _, _ => nan

/-- The `*` of `float`. -/
def F32.mul : F32 → F32 → F32
  | fin a, fin b => round32 (a * b)
  | fin a, pinf => if a = 0 then nan else if 0 < a then pinf else ninf
  | fin a, ninf => if a = 0 then nan else if 0 < a then ninf else pinf
  | pinf, fin b => if b = 0 then nan else if 0 < b then pinf else ninf
  | ninf, fin b => if b = 0 then nan else if 0 < b then ninf else pinf
  | pinf, pinf => pinf
  | pinf, ninf => ninf
  | ninf, pinf => ninf
  | ninf, ninf => pinf
  | _, _ => nan

/-- The `/` of `float` (a division by zero is an infinity or NaN, not a fault). -/
def F32.div : F32 → F32 → F32
  | fin a, fin b =>
    if b = 0 then (if a = 0 then nan else if 0 < a then pinf else ninf) else round32 (a / b)
  | fin _, pinf => fin 0
  | fin _, ninf => fin 0
  | pinf, fin b => if 0 ≤ b then pinf else ninf
  | ninf, fin b => if 0 ≤ b then ninf else pinf
  | _, _ => nan

/-- `std::abs` on `float`. -/
def F32.abs : F32 → F32
  | fin a => fin |a|
  | pinf => pinf
  | ninf => pinf
  | nan => nan

/-- Conversion of an `int32_t` or `int64_t` to `float`. -/
def F32.ofInt (z : Int) : F32 := round32 z

/-- Conversion of a `uint32_t` to `float`. -/
def F32.ofNat (n : Nat) : F32 := round32 n

/-- The data members of the controller class with `float` as binary32. -/
structure Binary32.Pid where
  m_timer : Timer
  m_PGain : Nat
  m_IGain : Nat
  m_DGain : Nat
  m_lowerBound : Int
  m_upperBound : Int
  m_deadzone : F32
  m_IPath : F32
  m_pastError : F32
  m_pastPV : F32
  m_antiKickback : Bool
deriving DecidableEq, Repr

/-- The constructor `PID::PID` (PID.cpp lines 5-16). -/
def Binary32.PID (proportionalGain intregralGain derivativeGain : Nat)
    (lowerBound upperBound : Int) (deadzone : F32) (antiKickback : Bool) : Binary32.Pid :=
  { m_timer := Timer.fresh
    m_PGain := proportionalGain
    m_IGain := intregralGain
    m_DGain := derivativeGain
    m_lowerBound := lowerBound
    m_upperBound := upperBound
    m_deadzone := deadzone
    m_antiKickback := antiKickback
    m_IPath := F32.fin 0
    m_pastError := F32.fin 0
    m_pastPV := F32.fin 0 }

/-- `PID::updateProportionalGain` (lines 18-21). -/
def Binary32.updateProportionalGain (self : Binary32.Pid) (p : Nat) : Binary32.Pid :=
  { self with m_PGain := p }

/-- `PID::updateIntegralGain` (lines 23-26). -/
def Binary32.updateIntegralGain (self : Binary32.Pid) (i : Nat) : Binary32.Pid :=
  { self with m_IGain := i }

/-- `PID::updateDerivativeGain` (lines 28-31). -/
def Binary32.updateDerivativeGain (self : Binary32.Pid) (d : Nat) : Binary32.Pid :=
  { self with m_DGain := d }

/-- `PID::updateDeadzone` (lines 33-36). -/
def Binary32.updateDeadzone (self : Binary32.Pid) (deadzone : F32) : Binary32.Pid :=
  { self with m_deadzone := deadzone }

/-- `PID::reset` (lines 58-65). -/
def Binary32.reset (self : Binary32.Pid) : Binary32.Pid :=
  { self with
    m_IPath := F32.fin 0
    m_pastError := F32.fin 0
    m_pastPV := F32.fin 0
    m_timer := self.m_timer.stop.reset }

/-- `std::max(a, b)` on `float`: `(a < b) ? b : a`. -/
def F32.max (a b : F32) : F32 := bif F32.lt a b then b else a

/-- `std::min(a, b)` on `float`: `(b < a) ? b : a`. -/
def F32.min (a b : F32) : F32 := bif F32.lt b a then b else a

/-- `std::clamp(v, lo, hi)` on `float`, as the standard library of the GNU
toolchain evaluates it: `std::min(std::max(v, lo), hi)`. A NaN `v` is returned
as it is. -/
def Binary32.clamp (v lo hi : F32) : F32 := F32.min (F32.max v lo) hi

/-- `PID::computePPath` (lines 68-70). -/
def Binary32.computePPath (self : Binary32.Pid) (error : F32) : F32 :=
  F32.mul error (F32.ofNat self.m_PGain)

/-- `PID::computeIPath` (lines 73-77): returns `m_IPath` and the object with the
accumulator updated; the bounds are converted to `float` for the clamp. -/
def Binary32.computeIPath (self : Binary32.Pid) (error : F32) (dt : Int) : F32 × Binary32.Pid :=
  let m_IPath := F32.add self.m_IPath
    (F32.mul (F32.mul error (F32.ofInt dt)) (F32.ofNat self.m_IGain))
  let m_IPath := Binary32.clamp m_IPath (F32.ofInt self.m_lowerBound)
    (F32.ofInt self.m_upperBound)
  (m_IPath, { self with m_IPath := m_IPath })

/-- `PID::computeDPathOnError` (lines 80-86). -/
def Binary32.computeDPathOnError (self : Binary32.Pid) (error : F32) (dt : Int) : F32 :=
  if dt ≠ 0 then
    F32.div (F32.mul (F32.ofNat self.m_DGain) (F32.sub error self.m_pastError)) (F32.ofInt dt)
  else F32.fin 0

/-- `PID::computeDPathOnPV` (lines 88-94). -/
def Binary32.computeDPathOnPV (self : Binary32.Pid) (processVariable : F32) (dt : Int) : F32 :=
  if dt ≠ 0 then
    F32.div (F32.mul (F32.ofNat self.m_DGain) (F32.sub processVariable self.m_pastPV))
      (F32.ofInt dt)
  else F32.fin 0

/-- What one call of `compute` produces: the returned value `paths`, the object
on return (`self`), and the values of the locals of the call. -/
structure Binary32.Computed where
  error : F32
  dt : Int
  pPath : F32
  iPath : F32
  dPath : F32
  paths : F32
  self : Binary32.Pid
deriving DecidableEq, Repr

/-- `PID::compute` (lines 96-115). The arguments of the two derivative helpers
are passed exactly as line 108 passes them. -/
def Binary32.compute (self : Binary32.Pid) (setPoint processVariable : F32) :
    Binary32.Computed :=
  let error := F32.sub setPoint processVariable
  let error := bif F32.lt (F32.abs error) self.m_deadzone then F32.fin 0 else error
  let self := { self with m_timer := self.m_timer.stop }
  let dt := self.m_timer.elapsed_time
  let pPath := Binary32.computePPath self error
  let iPath := (Binary32.computeIPath self error dt).1
  let self := (Binary32.computeIPath self error dt).2
  let dPath := if self.m_antiKickback then Binary32.computeDPathOnPV self error dt
    else Binary32.computeDPathOnError self processVariable dt
  let paths := F32.add (F32.add pPath iPath) dPath
  let paths := Binary32.clamp paths (F32.ofInt self.m_lowerBound) (F32.ofInt self.m_upperBound)
  { error := error
    dt := dt
    pPath := pPath
    iPath := iPath
    dPath := dPath
    paths := paths
    self := { self with
              m_pastError := error
              m_pastPV := processVariable
              m_timer := self.m_timer.start } }

/-- Passage of `d` ticks of wall-clock time between two calls on the controller. -/
def Binary32.elapse (self : Binary32.Pid) (d : Nat) : Binary32.Pid :=
  { self with m_timer := self.m_timer.advance d }

/-- The operations of a run: `compute`, the four mutators, `reset`, and the
passage of time. -/
inductive Binary32.Op where
  | compute (setPoint processVariable : F32)
  | updateProportionalGain (p : Nat)
  | updateIntegralGain (i : Nat)
  | updateDerivativeGain (d : Nat)
  | updateDeadzone (deadzone : F32)
  | reset
  | elapse (d : Nat)
deriving DecidableEq, Repr

/-- Whether an operation is a `reset` call. -/
def Binary32.Op.isReset : Binary32.Op → Bool
  | Binary32.Op.reset => true
  | _ => false

/-- The controller after one operation. -/
def Binary32.step (self : Binary32.Pid) : Binary32.Op → Binary32.Pid
  | Binary32.Op.compute setPoint processVariable =>
    (Binary32.compute self setPoint processVariable).self
  | Binary32.Op.updateProportionalGain p => Binary32.updateProportionalGain self p
  | Binary32.Op.updateIntegralGain i => Binary32.updateIntegralGain self i
  | Binary32.Op.updateDerivativeGain d => Binary32.updateDerivativeGain self d
  | Binary32.Op.updateDeadzone deadzone => Binary32.updateDeadzone self deadzone
  | Binary32.Op.reset => Binary32.reset self
  | Binary32.Op.elapse d => Binary32.elapse self d

/-- The controller after a sequence of operations, first to last. -/
def Binary32.run (self : Binary32.Pid) : List Binary32.Op → Binary32.Pid
  | [] => self
  | op :: ops => Binary32.run (Binary32.step self op) ops

/-- One iteration of a control loop: `wait` ticks pass, then `compute` is called. -/
structure Binary32.Call where
  wait : Nat
  setPoint : F32
  processVariable : F32
deriving DecidableEq, Repr

/-- The results of successive `compute` calls, each made on the object left by
the previous one after the stated wait. -/
def Binary32.computeSeq (self : Binary32.Pid) : List Binary32.Call → List Binary32.Computed
  | [] => []
  | c :: cs =>
    (Binary32.compute (Binary32.elapse self c.wait) c.setPoint c.processVariable) ::
      Binary32.computeSeq
        (Binary32.compute (Binary32.elapse self c.wait) c.setPoint c.processVariable).self cs

/-- Two values are in order unless one of them is NaN. -/
def F32.ordered (x y : F32) : Prop := x = F32.nan ∨ y = F32.nan ∨ F32.le x y = true

/-- The second value is NaN or not below the first. -/
def F32.leOrNaN (x y : F32) : Prop := y = F32.nan ∨ F32.le x y = true

/-- A value is NaN or lies between two others. -/
def F32.within (x lo hi : F32) : Prop := x = F32.nan ∨ (F32.le lo x = true ∧ F32.le x hi = true)

/-! ## Auxiliary lemmas -/

/-- Within its precondition `std::clamp` returns the value the standard
prescribes. -/
theorem clamp_eq_clampSpec (v lo hi : ℚ) (h : lo ≤ hi) : clamp v lo hi = clampSpec v lo hi := by
  unfold clamp clampSpec
  split_ifs with h1 h2 h3 <;> first | rfl | linarith

theorem clamp_mem (v lo hi : ℚ) (h : lo ≤ hi) : lo ≤ clamp v lo hi ∧ clamp v lo hi ≤ hi := by
  rw [clamp_eq_clampSpec v lo hi h]
  unfold clampSpec
  split_ifs with h1 h2
  · exact ⟨le_refl _, h⟩
  · exact ⟨h, le_refl _⟩
  · exact ⟨not_lt.mp h1, not_lt.mp h2⟩

/-- Closed form of `compute`: the call always succeeds, and every component of
its result is the stated expression in the object before the call. -/
theorem compute_eq (self : Pid) (setPoint processVariable : ℚ) :
    compute self setPoint processVariable = some
      { error := errorOf self setPoint processVariable
        dt := self.m_timer.time
        pPath := errorOf self setPoint processVariable * self.m_PGain
        iPath := iPathOf self (errorOf self setPoint processVariable) self.m_timer.time
        dPath := dPathOf self (errorOf self setPoint processVariable) processVariable
                  self.m_timer.time
        paths := clamp (errorOf self setPoint processVariable * self.m_PGain
                    + iPathOf self (errorOf self setPoint processVariable) self.m_timer.time
                    + dPathOf self (errorOf self setPoint processVariable) processVariable
                        self.m_timer.time) self.m_lowerBound self.m_upperBound
        self := { self with
                  m_IPath := iPathOf self (errorOf self setPoint processVariable)
                              self.m_timer.time
                  m_pastError := errorOf self setPoint processVariable
                  m_pastPV := processVariable
                  m_timer := { running := true, time := 0 } } } := by
  by_cases hdt : self.m_timer.time = 0
  · cases hk : self.m_antiKickback <;>
      simp [compute, computePPath, computeIPath, computeDPathOnPV, computeDPathOnError, fdiv,
        errorOf, iPathOf, dPathOf, Timer.stop, Timer.start, Timer.elapsed_time, hdt, hk]
  · cases hk : self.m_antiKickback <;>
      simp [compute, computePPath, computeIPath, computeDPathOnPV, computeDPathOnError, fdiv,
        errorOf, iPathOf, dPathOf, Timer.stop, Timer.start, Timer.elapsed_time, hdt, hk]

/-! ## The derivative summand of line 108 -/

/-- C3 (the code at a failing input): an anti-kickback controller with
derivative gain 1 is called with process variable 5 and setpoint 5; one tick
later the setpoint has jumped to 25 and the process variable is still 5. The
derivative summand of the second call is `1 * (20 - 5) / 1 = 15`, the quotient
of error minus the previous process variable, where differentiating the process
variable gives `1 * (5 - 5) / 1 = 0`. -/
theorem antiKickback_derivative_at_setpoint_jump :
    ∃ r1 r2, compute (PID 0 0 1 (-100) 100 0 true) 5 5 = some r1 ∧
      compute (elapse r1.self 1) 25 5 = some r2 ∧
      r1.self.m_pastPV = 5 ∧ r2.error = 20 ∧ r2.dt = 1 ∧ r2.dPath = 15 ∧
      (r1.self.m_DGain : ℚ) * (5 - r1.self.m_pastPV) / r2.dt = 0 := by
  refine ⟨_, _, compute_eq _ _ _, compute_eq _ _ _, ?_⟩
  simp [errorOf, iPathOf, dPathOf, clamp, PID, elapse, Timer.advance, Timer.fresh]
  norm_num

/-- C4 (the code at a failing input): a controller without anti-kickback, with
derivative gain 1 and deadzone 0, is called with setpoint 0 and process variable
0; one tick later the setpoint has jumped to 20 and the process variable is
still 0. The derivative summand of the second call is `1 * (0 - 0) / 1 = 0`, the
quotient of process variable minus the previous error, where differentiating the
error gives `1 * (20 - 0) / 1 = 20`. -/
theorem classic_derivative_at_setpoint_jump :
    ∃ r1 r2, compute (PID 0 0 1 (-100) 100 0 false) 0 0 = some r1 ∧
      compute (elapse r1.self 1) 20 0 = some r2 ∧
      r1.self.m_pastError = 0 ∧ r2.error = 20 ∧ r2.dt = 1 ∧ r2.dPath = 0 ∧
      (r1.self.m_DGain : ℚ) * (r2.error - r1.self.m_pastError) / r2.dt = 20 := by
  refine ⟨_, _, compute_eq _ _ _, compute_eq _ _ _, ?_⟩
  simp [errorOf, iPathOf, dPathOf, clamp, PID, elapse, Timer.advance, Timer.fresh]

/-! ## The example of the specification -/

/-- C5: a controller constructed with gains P=2, I=0, D=0, bounds [-100, 100]
and deadzone 0, in either anti-kickback mode and whatever its timer reads,
returns exactly 20 from `compute(10, 0)`. -/
theorem compute_example (antiKickback : Bool) (timer : Timer) :
    ∃ r, compute { PID 2 0 0 (-100) 100 0 antiKickback with m_timer := timer } 10 0 = some r ∧
      r.error = 10 ∧ r.paths = 20 := by
  refine ⟨_, compute_eq _ _ _, ?_⟩
  simp [errorOf, iPathOf, dPathOf, clamp, PID]
  norm_num

/-! ## Deadzone -/

/-- C7: for every controller state `s`, setpoint and process variable, `reset()`
followed immediately by `compute` succeeds with exactly the result (returned
value, and object left behind, hence the same `m_IPath`, `m_pastError` and
`m_pastPV`) of the same `compute` call on a controller freshly constructed with
the gains, bounds, deadzone and anti-kickback mode of `s`. -/
theorem reset_then_compute_as_fresh (s : Pid) (setPoint processVariable : ℚ) :
    ∃ r, compute (reset s) setPoint processVariable = some r ∧
      compute (PID s.m_PGain s.m_IGain s.m_DGain s.m_lowerBound s.m_upperBound s.m_deadzone
        s.m_antiKickback) setPoint processVariable = some r ∧
      r.self.m_IPath = iPathOf (reset s) r.error 0 ∧ r.self.m_pastError = r.error ∧
      r.self.m_pastPV = processVariable :=
  ⟨_, compute_eq _ _ _, compute_eq _ _ _, rfl, rfl, rfl⟩

/-! ## Zero elapsed time -/

/-- C9: for every controller state, in both anti-kickback modes, and every
setpoint and process variable, `compute` succeeds whatever `dt` is (no division
by zero is reached), and when its `dt` is 0 its derivative summand is exactly 0;
both derivative helpers return 0 at `dt = 0` and never reach a division by zero. -/
theorem zero_dt_derivative_safe (s : Pid) (setPoint processVariable : ℚ) :
    (∃ r, compute s setPoint processVariable = some r ∧ (r.dt = 0 → r.dPath = 0)) ∧
    (∀ x : ℚ, computeDPathOnError s x 0 = some 0 ∧ computeDPathOnPV s x 0 = some 0) ∧
    (∀ (x : ℚ) (dt : Int),
      (computeDPathOnError s x dt).isSome = true ∧ (computeDPathOnPV s x dt).isSome = true) := by
  refine ⟨⟨_, compute_eq _ _ _, ?_⟩, ?_, ?_⟩
  · intro hdt
    have ht : s.m_timer.time = 0 := hdt
    simp [dPathOf, ht]
  · intro x
    simp [computeDPathOnError, computeDPathOnPV]
  · intro x dt
    by_cases hdt : dt = 0 <;> simp [computeDPathOnError, computeDPathOnPV, fdiv, hdt]

theorem zero_dt_derivative_safe_witness :
    ∃ r, compute { PID 1 1 3 (-100) 100 0 false with m_pastError := 4, m_pastPV := 9 } 7 2
        = some r ∧ r.dt = 0 ∧ r.dPath = 0 := by
  obtain ⟨r, hr, hd⟩ := (zero_dt_derivative_safe
    { PID 1 1 3 (-100) 100 0 false with m_pastError := 4, m_pastPV := 9 } 7 2).1
  have hdt : r.dt = 0 := by
    rw [compute_eq] at hr
    cases hr
    rfl
  exact ⟨r, hr, hdt, hd hdt⟩

/-! ## Anti-windup responsiveness -/

/-- With a negative error, a positive `dt` and a positive integral gain, an
accumulator at the upper bound of a non-empty range comes out strictly below it. -/
theorem iPathOf_lt_upper (self : Pid) (error : ℚ) (dt : Int)
    (h : self.m_lowerBound < self.m_upperBound) (hg : 0 < self.m_IGain)
    (hpin : self.m_IPath = (self.m_upperBound : ℚ)) (he : error < 0) (hdt : 0 < dt) :
    iPathOf self error dt < (self.m_upperBound : ℚ) := by
  have hdt2 : (0 : ℚ) < dt := by exact_mod_cast hdt
  have hg2 : (0 : ℚ) < self.m_IGain := by exact_mod_cast hg
  have hadd : error * dt * self.m_IGain < 0 :=
    mul_neg_of_neg_of_pos (mul_neg_of_neg_of_pos he hdt2) hg2
  have hb : (self.m_lowerBound : ℚ) < self.m_upperBound := by exact_mod_cast h
  unfold iPathOf
  rw [clamp_eq_clampSpec _ _ _ (le_of_lt hb)]
  unfold clampSpec
  split_ifs with h1 h2
  · exact hb
  · linarith
  · linarith

/-- C11 (the code at a failing input): a controller without anti-kickback, with
gains P=1, I=1, D=4, bounds [-100, 100] and deadzone 0, is called twice with
setpoint 200 and process variable 0, one tick apart, which pins the accumulator
at 100. One tick later, from that state, the call with setpoint 299 and process
variable 300 (error -1, `dt` 1) leaves the accumulator at 99 and returns 100,
while the positive-error call with setpoint 200 and process variable 0 returns
-100: the derivative summand is taken from the process variable and the previous
error (400 against -800), not from the error. -/
theorem reversal_output_above_positive_call :
    ∃ r1 r2 rpos rneg, compute (PID 1 1 4 (-100) 100 0 false) 200 0 = some r1 ∧
      compute (elapse r1.self 1) 200 0 = some r2 ∧
      r2.self.m_IPath = ((r2.self.m_upperBound : Int) : ℚ) ∧
      compute (elapse r2.self 1) 200 0 = some rpos ∧
      compute (elapse r2.self 1) 299 300 = some rneg ∧
      0 < rpos.error ∧ rneg.error < 0 ∧ 0 < rneg.dt ∧
      rneg.self.m_IPath = 99 ∧ rneg.dPath = 400 ∧ rpos.dPath = -800 ∧
      rneg.paths = 100 ∧ rpos.paths = -100 ∧ rpos.paths < rneg.paths := by
  refine ⟨_, _, _, _, compute_eq _ _ _, compute_eq _ _ _, ?_, compute_eq _ _ _,
    compute_eq _ _ _, ?_⟩
  · simp [errorOf, iPathOf, clamp, PID, elapse, Timer.advance, Timer.fresh]
    norm_num
  · simp [errorOf, iPathOf, dPathOf, clamp, PID, elapse, Timer.advance, Timer.fresh]
    norm_num

/-! ## Mutators, accessors and reset -/

/-- C12: each of `updateProportionalGain`, `updateIntegralGain`,
`updateDerivativeGain` and `updateDeadzone` stores its argument in its own field
and leaves every other member (the other gains, deadzone, bounds, anti-kickback
mode, `m_IPath`, `m_pastError`, `m_pastPV`, timer) as it was, and the matching
report accessor called next returns the stored value. The accessors are `const`
member functions: they are functions of the object that return the field and no
new object. -/
theorem update_report_frame (s : Pid) (p i d : Nat) (deadzone : ℚ) :
    ((updateProportionalGain s p).m_PGain = p ∧
      (updateProportionalGain s p).m_IGain = s.m_IGain ∧
      (updateProportionalGain s p).m_DGain = s.m_DGain ∧
      (updateProportionalGain s p).m_deadzone = s.m_deadzone ∧
      (updateProportionalGain s p).m_lowerBound = s.m_lowerBound ∧
      (updateProportionalGain s p).m_upperBound = s.m_upperBound ∧
      (updateProportionalGain s p).m_antiKickback = s.m_antiKickback ∧
      (updateProportionalGain s p).m_IPath = s.m_IPath ∧
      (updateProportionalGain s p).m_pastError = s.m_pastError ∧
      (updateProportionalGain s p).m_pastPV = s.m_pastPV ∧
      (updateProportionalGain s p).m_timer = s.m_timer ∧
      reportProportionalGain (updateProportionalGain s p) = p) ∧
    ((updateIntegralGain s i).m_IGain = i ∧
      (updateIntegralGain s i).m_PGain = s.m_PGain ∧
      (updateIntegralGain s i).m_DGain = s.m_DGain ∧
      (updateIntegralGain s i).m_deadzone = s.m_deadzone ∧
      (updateIntegralGain s i).m_lowerBound = s.m_lowerBound ∧
      (updateIntegralGain s i).m_upperBound = s.m_upperBound ∧
      (updateIntegralGain s i).m_antiKickback = s.m_antiKickback ∧
      (updateIntegralGain s i).m_IPath = s.m_IPath ∧
      (updateIntegralGain s i).m_pastError = s.m_pastError ∧
      (updateIntegralGain s i).m_pastPV = s.m_pastPV ∧
      (updateIntegralGain s i).m_timer = s.m_timer ∧
      reportIntegralGain (updateIntegralGain s i) = i) ∧
    ((updateDerivativeGain s d).m_DGain = d ∧
      (updateDerivativeGain s d).m_PGain = s.m_PGain ∧
      (updateDerivativeGain s d).m_IGain = s.m_IGain ∧
      (updateDerivativeGain s d).m_deadzone = s.m_deadzone ∧
      (updateDerivativeGain s d).m_lowerBound = s.m_lowerBound ∧
      (updateDerivativeGain s d).m_upperBound = s.m_upperBound ∧
      (updateDerivativeGain s d).m_antiKickback = s.m_antiKickback ∧
      (updateDerivativeGain s d).m_IPath = s.m_IPath ∧
      (updateDerivativeGain s d).m_pastError = s.m_pastError ∧
      (updateDerivativeGain s d).m_pastPV = s.m_pastPV ∧
      (updateDerivativeGain s d).m_timer = s.m_timer ∧
      reportDerivativeGain (updateDerivativeGain s d) = d) ∧
    ((updateDeadzone s deadzone).m_deadzone = deadzone ∧
      (updateDeadzone s deadzone).m_PGain = s.m_PGain ∧
      (updateDeadzone s deadzone).m_IGain = s.m_IGain ∧
      (updateDeadzone s deadzone).m_DGain = s.m_DGain ∧
      (updateDeadzone s deadzone).m_lowerBound = s.m_lowerBound ∧
      (updateDeadzone s deadzone).m_upperBound = s.m_upperBound ∧
      (updateDeadzone s deadzone).m_antiKickback = s.m_antiKickback ∧
      (updateDeadzone s deadzone).m_IPath = s.m_IPath ∧
      (updateDeadzone s deadzone).m_pastError = s.m_pastError ∧
      (updateDeadzone s deadzone).m_pastPV = s.m_pastPV ∧
      (updateDeadzone s deadzone).m_timer = s.m_timer ∧
      reportDeadzone (updateDeadzone s deadzone) = deadzone) ∧
    (reportProportionalGain s = s.m_PGain ∧ reportIntegralGain s = s.m_IGain ∧
      reportDerivativeGain s = s.m_DGain ∧ reportDeadzone s = s.m_deadzone) :=
  ⟨⟨rfl, rfl, rfl, rfl, rfl, rfl, rfl, rfl, rfl, rfl, rfl, rfl⟩,
    ⟨rfl, rfl, rfl, rfl, rfl, rfl, rfl, rfl, rfl, rfl, rfl, rfl⟩,
    ⟨rfl, rfl, rfl, rfl, rfl, rfl, rfl, rfl, rfl, rfl, rfl, rfl⟩,
    ⟨rfl, rfl, rfl, rfl, rfl, rfl, rfl, rfl, rfl, rfl, rfl, rfl⟩,
    ⟨rfl, rfl, rfl, rfl⟩⟩

/-- C13: for every state `s`, `reset(s)` has `m_IPath = 0`, `m_pastError = 0`,
`m_pastPV = 0` and a stopped timer with zero elapsed time, keeps the gains, the
deadzone, the bounds and the anti-kickback mode of `s`, and resetting again
changes nothing: `reset(reset(s)) = reset(s)`. -/
theorem reset_clears_and_idempotent (s : Pid) :
    (reset s).m_IPath = 0 ∧ (reset s).m_pastError = 0 ∧ (reset s).m_pastPV = 0 ∧
    (reset s).m_timer.running = false ∧ (reset s).m_timer.elapsed_time = 0 ∧
    (reset s).m_PGain = s.m_PGain ∧ (reset s).m_IGain = s.m_IGain ∧
    (reset s).m_DGain = s.m_DGain ∧ (reset s).m_deadzone = s.m_deadzone ∧
    (reset s).m_lowerBound = s.m_lowerBound ∧ (reset s).m_upperBound = s.m_upperBound ∧
    (reset s).m_antiKickback = s.m_antiKickback ∧
    reset (reset s) = reset s :=
  ⟨rfl, rfl, rfl, rfl, rfl, rfl, rfl, rfl, rfl, rfl, rfl, rfl, rfl⟩

/-! ## What one call of compute stores and returns -/

/-- C18: for every state, setpoint, process variable and timer reading,
`compute` succeeds and leaves the three gains, the deadzone, both bounds and
the anti-kickback mode as they were. -/
theorem compute_keeps_configuration (s : Pid) (setPoint processVariable : ℚ) :
    ∃ r, compute s setPoint processVariable = some r ∧
      r.self.m_PGain = s.m_PGain ∧ r.self.m_IGain = s.m_IGain ∧
      r.self.m_DGain = s.m_DGain ∧ r.self.m_deadzone = s.m_deadzone ∧
      r.self.m_lowerBound = s.m_lowerBound ∧ r.self.m_upperBound = s.m_upperBound ∧
      r.self.m_antiKickback = s.m_antiKickback :=
  ⟨_, compute_eq s setPoint processVariable, rfl, rfl, rfl, rfl, rfl, rfl, rfl⟩

/-! ## The elapsed time read by compute -/

/-- C17: with the timer of the specification (`stop()` ends a measurement,
`start()` begins a new one, `reset()` zeroes it), for every state, every running
intervals `t1` and `t2` and all arguments: in the sequence `reset`, `compute`,
`t1` ticks, `compute`, `t2` ticks, `compute`, the first call reads `dt = 0`, the
second `dt = t1` and the third `dt = t2`, not `t1 + t2`; the third call scales
its integral increment by `t2` and divides its derivative difference by `t2`. -/
theorem third_compute_dt_is_last_interval (s : Pid) (t1 t2 : Nat)
    (sp1 pv1 sp2 pv2 sp3 pv3 : ℚ) :
    ∃ r1 r2 r3, compute (reset s) sp1 pv1 = some r1 ∧
      compute (elapse r1.self t1) sp2 pv2 = some r2 ∧
      compute (elapse r2.self t2) sp3 pv3 = some r3 ∧
      r1.dt = 0 ∧ r2.dt = t1 ∧ r3.dt = t2 ∧
      r3.self.m_IPath =
        clamp (r2.self.m_IPath + r3.error * ((t2 : Int) : ℚ) * s.m_IGain)
          s.m_lowerBound s.m_upperBound ∧
      r3.dPath = (if (t2 : Int) = 0 then 0
        else if s.m_antiKickback then s.m_DGain * (r3.error - r2.self.m_pastPV) / ((t2 : Int) : ℚ)
        else s.m_DGain * (pv3 - r2.self.m_pastError) / ((t2 : Int) : ℚ)) := by
  refine ⟨_, _, _, compute_eq _ _ _, compute_eq _ _ _, compute_eq _ _ _, ?_⟩
  simp [reset, elapse, Timer.advance, Timer.reset, Timer.stop, iPathOf, dPathOf]

/-! ## Rounding to binary32 -/

theorem roundEven_intCast (z : Int) : roundEven (z : ℚ) = z := by
  simp [roundEven]

theorem floor_le_roundEven (x : ℚ) : ⌊x⌋ ≤ roundEven x := by
  unfold roundEven
  split_ifs <;> omega

theorem roundEven_le_floor_add_one (x : ℚ) : roundEven x ≤ ⌊x⌋ + 1 := by
  unfold roundEven
  split_ifs <;> omega

theorem roundEven_le_of_le_int (x : ℚ) (z : Int) (h : x ≤ z) : roundEven x ≤ z := by
  rcases eq_or_lt_of_le h with h1 | h1
  · rw [h1, roundEven_intCast]
  · have : ⌊x⌋ < z := Int.floor_lt.mpr h1
    have := roundEven_le_floor_add_one x
    omega

theorem int_le_roundEven (x : ℚ) (z : Int) (h : (z : ℚ) ≤ x) : z ≤ roundEven x :=
  le_trans (Int.le_floor.mpr h) (floor_le_roundEven x)

theorem roundEven_mono (x y : ℚ) (h : x ≤ y) : roundEven x ≤ roundEven y := by
  have hf : ⌊x⌋ ≤ ⌊y⌋ := Int.floor_mono h
  rcases eq_or_lt_of_le hf with he | hl
  · unfold roundEven
    rw [he]
    have hxy : x - ⌊y⌋ ≤ y - ⌊y⌋ := by linarith
    split_ifs <;> first | omega | (exfalso; linarith)
  · have h1 := roundEven_le_floor_add_one x
    have h2 := floor_le_roundEven y
    omega

theorem two_zpow_pos (e : Int) : (0 : ℚ) < 2 ^ e := zpow_pos (by norm_num) e

theorem two_zpow_log_le (r : ℚ) (hr : 0 < r) : (2 : ℚ) ^ Int.log 2 r ≤ r := by
  simpa using Int.zpow_log_le_self (b := 2) (R := ℚ) (by norm_num) hr

theorem lt_two_zpow_iff (r : ℚ) (hr : 0 < r) (x : Int) : r < (2 : ℚ) ^ x ↔ Int.log 2 r < x := by
  simpa using Int.lt_zpow_iff_log_lt (b := 2) (R := ℚ) (by norm_num) (x := x) hr

theorem two_zpow_le_iff (r : ℚ) (hr : 0 < r) (x : Int) : (2 : ℚ) ^ x ≤ r ↔ x ≤ Int.log 2 r := by
  simpa using Int.zpow_le_iff_le_log (b := 2) (R := ℚ) (by norm_num) (x := x) hr

theorem ulpExp_ge (a : ℚ) : -149 ≤ ulpExp a := le_max_right _ _

theorem log_le_ulpExp (a : ℚ) : Int.log 2 a - 23 ≤ ulpExp a := le_max_left _ _

theorem ulpExp_mono (a b : ℚ) (ha : 0 < a) (h : a ≤ b) : ulpExp a ≤ ulpExp b := by
  have := Int.log_mono_right (b := 2) ha h
  unfold ulpExp
  exact max_le_max (by omega) (le_refl _)

theorem ulpExp_of_bounds (a : ℚ) (k : Int) (h1 : (2 : ℚ) ^ k ≤ a) (h2 : a < 2 ^ (k + 1)) :
    ulpExp a = max (k - 23) (-149) := by
  have ha : 0 < a := lt_of_lt_of_le (two_zpow_pos k) h1
  have e1 := (two_zpow_le_iff a ha k).mp h1
  have e2 := (lt_two_zpow_iff a ha (k + 1)).mp h2
  have : Int.log 2 a = k := by omega
  rw [ulpExp, this]

theorem roundMag_zero : roundMag 0 = 0 := by
  simp [roundMag, roundEven]

theorem roundMag_nonneg (a : ℚ) (ha : 0 ≤ a) : 0 ≤ roundMag a := by
  unfold roundMag
  have h1 : (0 : ℚ) ≤ a / 2 ^ ulpExp a := div_nonneg ha (le_of_lt (two_zpow_pos _))
  have h2 : (0 : Int) ≤ roundEven (a / 2 ^ ulpExp a) := int_le_roundEven _ 0 (by simpa using h1)
  exact mul_nonneg (by exact_mod_cast h2) (le_of_lt (two_zpow_pos _))

/-- A magnitude `n * 2 ^ e` with a 24-bit `n` and `e ≥ -149` is not changed by rounding. -/
theorem roundMag_exact (n : Nat) (e : Int) (hn : n < 2 ^ 24) (he : -149 ≤ e) :
    roundMag ((n : ℚ) * 2 ^ e) = (n : ℚ) * 2 ^ e := by
  rcases Nat.eq_zero_or_pos n with h0 | hpos
  · subst h0; simp [roundMag_zero]
  have hnq : (0 : ℚ) < n := by exact_mod_cast hpos
  have ha : (0 : ℚ) < (n : ℚ) * 2 ^ e := mul_pos hnq (two_zpow_pos e)
  have hlt : (n : ℚ) * 2 ^ e < 2 ^ (e + 24) := by
    have h24 : (n : ℚ) < 2 ^ (24 : Int) := by
      have h : (n : ℚ) < ((2 ^ 24 : Nat) : ℚ) := Nat.cast_lt.mpr hn
      norm_num at h ⊢
      exact h
    calc (n : ℚ) * 2 ^ e < 2 ^ (24 : Int) * 2 ^ e :=
          mul_lt_mul_of_pos_right h24 (two_zpow_pos e)
      _ = 2 ^ (e + 24) := by rw [← zpow_add₀ (by norm_num : (2 : ℚ) ≠ 0)]; congr 1; ring
  have hlog := (lt_two_zpow_iff _ ha (e + 24)).mp hlt
  have hu : ulpExp ((n : ℚ) * 2 ^ e) ≤ e := by
    unfold ulpExp
    exact max_le (by omega) he
  obtain ⟨d, hd⟩ := Int.le.dest hu
  have hdiv : (n : ℚ) * 2 ^ e / 2 ^ ulpExp ((n : ℚ) * 2 ^ e) = (((n * 2 ^ d : Nat) : Int) : ℚ) := by
    rw [mul_div_assoc, ← zpow_sub₀ (by norm_num : (2 : ℚ) ≠ 0)]
    have : e - ulpExp ((n : ℚ) * 2 ^ e) = (d : Int) := by omega
    rw [this, zpow_natCast]
    push_cast
    ring
  unfold roundMag
  rw [hdiv, roundEven_intCast]
  push_cast
  rw [mul_assoc, ← zpow_natCast, ← zpow_add₀ (by norm_num : (2 : ℚ) ≠ 0)]
  congr 2
  omega

/-- The rounded magnitude is a 24-bit multiple of the unit in the last place. -/
theorem roundEven_div_ulp_le (a : ℚ) (ha : 0 < a) :
    roundEven (a / 2 ^ ulpExp a) ≤ 2 ^ 24 := by
  have h1 : a < 2 ^ (Int.log 2 a + 1) := (lt_two_zpow_iff a ha _).mpr (by omega)
  have h2 : (2 : ℚ) ^ (Int.log 2 a + 1) ≤ 2 ^ (ulpExp a + 24) :=
    zpow_le_zpow_right₀ (by norm_num) (by have := log_le_ulpExp a; omega)
  have h3 : a / 2 ^ ulpExp a ≤ ((2 ^ 24 : Int) : ℚ) := by
    rw [div_le_iff₀ (two_zpow_pos _)]
    have : (2 : ℚ) ^ (ulpExp a + 24) = ((2 ^ 24 : Int) : ℚ) * 2 ^ ulpExp a := by
      rw [zpow_add₀ (by norm_num : (2 : ℚ) ≠ 0)]
      push_cast
      rw [mul_comm]
      norm_num
    linarith
  exact roundEven_le_of_le_int _ _ h3

theorem roundMag_idem (a : ℚ) (ha : 0 ≤ a) : roundMag (roundMag a) = roundMag a := by
  rcases eq_or_lt_of_le ha with h0 | hpos
  · rw [← h0, roundMag_zero, roundMag_zero]
  have hle := roundEven_div_ulp_le a hpos
  have hge : (0 : Int) ≤ roundEven (a / 2 ^ ulpExp a) :=
    int_le_roundEven _ 0 (by simpa using div_nonneg ha (le_of_lt (two_zpow_pos (ulpExp a))))
  obtain ⟨N, hN⟩ := Int.eq_ofNat_of_zero_le hge
  have hform : roundMag a = (N : ℚ) * 2 ^ ulpExp a := by
    unfold roundMag
    rw [hN]
    push_cast
    rfl
  rw [hform]
  rcases eq_or_lt_of_le hle with heq | hlt
  · have hN24 : N = 2 ^ 24 := by
      have : (N : Int) = 2 ^ 24 := by rw [← hN]; exact heq
      exact_mod_cast this
    have hre : (N : ℚ) * 2 ^ ulpExp a = ((2 ^ 23 : Nat) : ℚ) * 2 ^ (ulpExp a + 1) := by
      rw [hN24, zpow_add₀ (by norm_num : (2 : ℚ) ≠ 0)]
      push_cast
      ring
    rw [hre]
    exact roundMag_exact (2 ^ 23) (ulpExp a + 1) (by norm_num) (by have := ulpExp_ge a; omega)
  · have hN24 : N < 2 ^ 24 := by
      have : (N : Int) < 2 ^ 24 := by rw [← hN]; exact hlt
      exact_mod_cast this
    exact roundMag_exact N (ulpExp a) hN24 (ulpExp_ge a)

theorem roundMag_mono (a b : ℚ) (ha : 0 ≤ a) (h : a ≤ b) : roundMag a ≤ roundMag b := by
  rcases eq_or_lt_of_le ha with h0 | hpos
  · rw [← h0, roundMag_zero]; exact roundMag_nonneg b (le_trans ha h)
  have hb : 0 < b := lt_of_lt_of_le hpos h
  have hu := ulpExp_mono a b hpos h
  rcases eq_or_lt_of_le hu with heq | hlt
  · unfold roundMag
    rw [heq]
    have hd : a / 2 ^ ulpExp b ≤ b / 2 ^ ulpExp b :=
      div_le_div_of_nonneg_right h (le_of_lt (two_zpow_pos _))
    have := roundEven_mono _ _ hd
    exact mul_le_mul_of_nonneg_right (by exact_mod_cast this) (le_of_lt (two_zpow_pos _))
  · -- the binade of `b` starts at `2 ^ K`, which separates the two rounded values
    have hub : ulpExp b = Int.log 2 b - 23 := by
      have h149 := ulpExp_ge a
      unfold ulpExp at hlt ⊢
      rcases max_cases (Int.log 2 b - 23) (-149) with ⟨h1, _⟩ | ⟨h1, _⟩
      · exact h1
      · rw [h1] at hlt; unfold ulpExp at h149; omega
    have hla : Int.log 2 a < Int.log 2 b := by
      have := log_le_ulpExp a
      omega
    have hK1 : (2 : ℚ) ^ Int.log 2 b ≤ b := two_zpow_log_le b hb
    have hK2 : a < (2 : ℚ) ^ Int.log 2 b := (lt_two_zpow_iff a hpos _).mpr hla
    have hmid1 : roundMag a ≤ 2 ^ Int.log 2 b := by
      have hdle : ulpExp a ≤ Int.log 2 b := by have := ulpExp_ge a; omega
      obtain ⟨d, hd⟩ := Int.le.dest hdle
      have hpow : (2 : ℚ) ^ Int.log 2 b = (((2 ^ d : Nat) : Int) : ℚ) * 2 ^ ulpExp a := by
        rw [← hd, zpow_add₀ (by norm_num : (2 : ℚ) ≠ 0), zpow_natCast]
        push_cast
        ring
      have hq : a / 2 ^ ulpExp a ≤ (((2 ^ d : Nat) : Int) : ℚ) := by
        rw [div_le_iff₀ (two_zpow_pos _), ← hpow]
        exact le_of_lt hK2
      have := roundEven_le_of_le_int _ _ hq
      unfold roundMag
      rw [hpow]
      exact mul_le_mul_of_nonneg_right (by exact_mod_cast this) (le_of_lt (two_zpow_pos _))
    have hmid2 : (2 : ℚ) ^ Int.log 2 b ≤ roundMag b := by
      have hpow : (2 : ℚ) ^ Int.log 2 b = (((2 ^ 23 : Nat) : Int) : ℚ) * 2 ^ ulpExp b := by
        rw [hub]
        have : Int.log 2 b = (Int.log 2 b - 23) + 23 := by ring
        conv_lhs => rw [this]
        rw [zpow_add₀ (by norm_num : (2 : ℚ) ≠ 0)]
        push_cast
        rw [mul_comm]
        norm_num
      have hq : (((2 ^ 23 : Nat) : Int) : ℚ) ≤ b / 2 ^ ulpExp b := by
        rw [le_div_iff₀ (two_zpow_pos _), ← hpow]
        exact hK1
      have := int_le_roundEven _ _ hq
      unfold roundMag
      rw [hpow]
      exact mul_le_mul_of_nonneg_right (by exact_mod_cast this) (le_of_lt (two_zpow_pos _))
    exact le_trans hmid1 hmid2

theorem round32_of_nonneg (q : ℚ) (hq : 0 ≤ q) :
    round32 q = if 2 ^ 128 ≤ roundMag q then F32.pinf else F32.fin (roundMag q) := by
  unfold round32
  rw [abs_of_nonneg hq]
  simp [hq]

theorem round32_of_neg (q : ℚ) (hq : q < 0) :
    round32 q = if 2 ^ 128 ≤ roundMag (-q) then F32.ninf else F32.fin (-roundMag (-q)) := by
  unfold round32
  rw [abs_of_neg hq]
  simp [not_le.mpr hq]

theorem round32_zero : round32 0 = F32.fin 0 := by
  rw [round32_of_nonneg 0 (le_refl _), roundMag_zero]
  norm_num

theorem round32_ne_nan (q : ℚ) : round32 q ≠ F32.nan := by
  unfold round32
  split_ifs <;> simp

/-- Rounding is monotone. -/
theorem round32_mono (p q : ℚ) (h : p ≤ q) : (round32 p).le (round32 q) = true := by
  rcases le_or_lt 0 p with hp | hp
  · have hq : 0 ≤ q := le_trans hp h
    have hm := roundMag_mono p q hp h
    rw [round32_of_nonneg p hp, round32_of_nonneg q hq]
    split_ifs with h1 h2 h2
    · rfl
    · exact absurd (le_trans h1 hm) h2
    · rfl
    · simpa [F32.le] using hm
  · rcases le_or_lt 0 q with hq | hq
    · have hm1 := roundMag_nonneg (-p) (by linarith)
      have hm2 := roundMag_nonneg q hq
      rw [round32_of_neg p hp, round32_of_nonneg q hq]
      split_ifs
      · rfl
      · rfl
      · rfl
      · simp only [F32.le, decide_eq_true_eq]; linarith
    · have hm := roundMag_mono (-q) (-p) (by linarith) (by linarith)
      rw [round32_of_neg p hp, round32_of_neg q hq]
      split_ifs with h1 h2 h2
      · rfl
      · rfl
      · exact absurd (le_trans h2 hm) h1
      · simp only [F32.le, decide_eq_true_eq]; linarith

/-- A rounded value is not changed by rounding it again. -/
theorem round32_idem (q p : ℚ) (h : round32 q = F32.fin p) : round32 p = F32.fin p := by
  rcases le_or_lt 0 q with hq | hq
  · rw [round32_of_nonneg q hq] at h
    split_ifs at h with h1
    have hp : p = roundMag q := (F32.fin.inj h).symm
    have hp0 : 0 ≤ p := hp ▸ roundMag_nonneg q hq
    rw [round32_of_nonneg p hp0, hp, roundMag_idem q hq, if_neg h1]
  · rw [round32_of_neg q hq] at h
    split_ifs at h with h1
    have hp : p = -roundMag (-q) := (F32.fin.inj h).symm
    have hm0 : 0 ≤ roundMag (-q) := roundMag_nonneg (-q) (by linarith)
    rcases eq_or_lt_of_le hm0 with hz | hpos
    · rw [hp, ← hz]
      simp [round32_zero]
    · have hpneg : p < 0 := by rw [hp]; linarith
      rw [round32_of_neg p hpneg, hp, neg_neg, roundMag_idem (-q) (by linarith), if_neg h1]

theorem round32_isFloat (q : ℚ) : (round32 q).isFloat = true := by
  cases h : round32 q with
  | fin p => simpa [F32.isFloat] using round32_idem q p h
  | pinf => rfl
  | ninf => rfl
  | nan => rfl

/-- Every `n * 2 ^ e` with a 24-bit `n`, `e ≥ -149` and magnitude below `2 ^ 128`
is a value of the format. -/
theorem round32_exact (n : Nat) (e : Int) (hn : n < 2 ^ 24) (he : -149 ≤ e)
    (hlt : (n : ℚ) * 2 ^ e < 2 ^ 128) :
    round32 ((n : ℚ) * 2 ^ e) = F32.fin ((n : ℚ) * 2 ^ e) ∧
      round32 (-((n : ℚ) * 2 ^ e)) = F32.fin (-((n : ℚ) * 2 ^ e)) := by
  have h0 : (0 : ℚ) ≤ (n : ℚ) * 2 ^ e := mul_nonneg (Nat.cast_nonneg n) (le_of_lt (two_zpow_pos e))
  have hm := roundMag_exact n e hn he
  constructor
  · rw [round32_of_nonneg _ h0, hm, if_neg (not_le.mpr hlt)]
  · rcases eq_or_lt_of_le h0 with hz | hpos
    · rw [← hz]; simp [round32_zero]
    · rw [round32_of_neg _ (by linarith), neg_neg, hm, if_neg (not_le.mpr hlt)]

/-- Integers of magnitude at most `2 ^ 24` are converted exactly. -/
theorem round32_int (z : Int) (hz : |z| ≤ 2 ^ 24) : round32 (z : ℚ) = F32.fin (z : ℚ) := by
  have key : ∀ m : Nat, m ≤ 2 ^ 24 →
      round32 (m : ℚ) = F32.fin (m : ℚ) ∧ round32 (-(m : ℚ)) = F32.fin (-(m : ℚ)) := by
    intro m hm
    rcases eq_or_lt_of_le hm with heq | hlt
    · have := round32_exact (2 ^ 23) 1 (by norm_num) (by norm_num) (by norm_num)
      have h2 : ((2 ^ 23 : Nat) : ℚ) * 2 ^ (1 : Int) = (m : ℚ) := by rw [heq]; norm_num
      rwa [h2] at this
    · have hb : (m : ℚ) * 2 ^ (0 : Int) < 2 ^ 128 := by
        have : (m : ℚ) < ((2 ^ 24 : Nat) : ℚ) := Nat.cast_lt.mpr hlt
        norm_num at this ⊢
        linarith
      have := round32_exact m 0 hlt (by norm_num) hb
      simpa using this
  rcases le_or_lt 0 z with h0 | h0
  · obtain ⟨m, rfl⟩ := Int.eq_ofNat_of_zero_le h0
    have hm : m ≤ 2 ^ 24 := by
      rw [abs_of_nonneg h0] at hz
      exact_mod_cast hz
    simpa using (key m hm).1
  · obtain ⟨m, hm⟩ := Int.eq_ofNat_of_zero_le (show 0 ≤ -z by omega)
    have hz2 : z = -(m : Int) := by omega
    have hm24 : m ≤ 2 ^ 24 := by
      rw [abs_of_neg h0, hm] at hz
      exact_mod_cast hz
    rw [hz2]
    simpa using (key m hm24).2

theorem round32_overflow (q : ℚ) (h : 2 ^ 128 ≤ q) : round32 q = F32.pinf := by
  have h0 : (0 : ℚ) ≤ q := le_trans (by norm_num) h
  have hm := roundMag_mono (2 ^ 128) q (by norm_num) h
  have hex := roundMag_exact 1 128 (by norm_num) (by norm_num)
  simp only [Nat.cast_one, one_mul] at hex
  have h128 : (2 : ℚ) ^ (128 : Int) = 2 ^ 128 := by norm_num
  rw [h128] at hex
  rw [hex] at hm
  rw [round32_of_nonneg q h0, if_pos hm]

theorem round32_overflow_neg (q : ℚ) (h : q ≤ -2 ^ 128) : round32 q = F32.ninf := by
  have h0 : q < 0 := lt_of_le_of_lt h (by norm_num)
  have hm := roundMag_mono (2 ^ 128) (-q) (by norm_num) (by linarith)
  have hex := roundMag_exact 1 128 (by norm_num) (by norm_num)
  simp only [Nat.cast_one, one_mul] at hex
  have h128 : (2 : ℚ) ^ (128 : Int) = 2 ^ 128 := by norm_num
  rw [h128] at hex
  rw [hex] at hm
  rw [round32_of_neg q h0, if_pos hm]

/-! ## Order and clamp on binary32 values -/

theorem f32_le_refl (x : F32) (h : x ≠ F32.nan) : F32.le x x = true := by
  cases x <;> simp [F32.le] at h ⊢

theorem f32_le_trans (x y z : F32) (h1 : F32.le x y = true) (h2 : F32.le y z = true) :
    F32.le x z = true := by
  cases x <;> cases y <;> cases z <;> simp [F32.le] at h1 h2 ⊢
  exact le_trans h1 h2

theorem f32_le_antisymm (x y : F32) (h1 : F32.le x y = true) (h2 : F32.le y x = true) :
    x = y := by
  cases x <;> cases y <;> simp [F32.le] at h1 h2 ⊢
  exact le_antisymm h1 h2

theorem f32_le_ne_nan (x y : F32) (h : F32.le x y = true) : x ≠ F32.nan ∧ y ≠ F32.nan := by
  cases x <;> cases y <;> simp [F32.le] at h ⊢

theorem f32_not_lt_of_le (x y : F32) (h : F32.le x y = true) : F32.lt y x = false := by
  cases x <;> cases y <;> simp [F32.le, F32.lt] at h ⊢
  exact h

theorem f32_le_of_not_lt (x y : F32) (hx : x ≠ F32.nan) (hy : y ≠ F32.nan)
    (h : F32.lt x y = false) : F32.le y x = true := by
  cases x <;> cases y <;> simp [F32.le, F32.lt] at h hx hy ⊢
  exact h

theorem f32_le_of_lt (x y : F32) (h : F32.lt x y = true) : F32.le x y = true := by
  cases x <;> cases y <;> simp [F32.le, F32.lt] at h ⊢
  exact le_of_lt h

theorem clamp32_nan (lo hi : F32) : Binary32.clamp F32.nan lo hi = F32.nan := by
  cases lo <;> cases hi <;> simp [Binary32.clamp, F32.min, F32.max, F32.lt]

/-- For `lo <= hi` the clamp is the comparison chain of the language standard. -/
theorem clamp32_eq_chain (v lo hi : F32) (h : F32.le lo hi = true) :
    Binary32.clamp v lo hi = (bif F32.lt v lo then lo else bif F32.lt hi v then hi else v) := by
  unfold Binary32.clamp F32.min F32.max
  cases h1 : F32.lt v lo
  · rfl
  · simp [f32_not_lt_of_le lo hi h]

/-- For `lo <= hi` the clamped value is NaN (when `v` is) or lies in `[lo, hi]`. -/
theorem clamp32_within (v lo hi : F32) (h : F32.le lo hi = true) :
    F32.within (Binary32.clamp v lo hi) lo hi := by
  have hn := f32_le_ne_nan lo hi h
  unfold F32.within
  by_cases hv : v = F32.nan
  · left
    subst hv
    exact clamp32_nan _ _
  · right
    rw [clamp32_eq_chain v lo hi h]
    cases h1 : F32.lt v lo
    · cases h2 : F32.lt hi v
      · exact ⟨f32_le_of_not_lt v lo hv hn.1 h1, f32_le_of_not_lt hi v hn.2 hv h2⟩
      · exact ⟨h, f32_le_refl hi hn.2⟩
    · exact ⟨f32_le_refl lo hn.1, h⟩

theorem clamp32_of_within (v lo hi : F32) (h1 : F32.le lo v = true) (h2 : F32.le v hi = true) :
    Binary32.clamp v lo hi = v := by
  rw [clamp32_eq_chain v lo hi (f32_le_trans _ _ _ h1 h2)]
  rw [f32_not_lt_of_le lo v h1, f32_not_lt_of_le v hi h2]
  simp

theorem clamp32_isFloat (v lo hi : F32) (hv : v.isFloat = true) (hlo : lo.isFloat = true)
    (hhi : hi.isFloat = true) : (Binary32.clamp v lo hi).isFloat = true := by
  unfold Binary32.clamp F32.min F32.max
  cases F32.lt v lo
  · simp only [cond_false]
    cases F32.lt hi v <;> assumption
  · simp only [cond_true]
    cases F32.lt hi lo <;> assumption

theorem ofInt_mono (a b : Int) (h : a ≤ b) : F32.le (F32.ofInt a) (F32.ofInt b) = true :=
  round32_mono a b (by exact_mod_cast h)

theorem ofInt_zero : F32.ofInt 0 = F32.fin 0 := by
  simp [F32.ofInt, round32_zero]

theorem ofInt_exact (z : Int) (hz : |z| ≤ 2 ^ 24) : F32.ofInt z = F32.fin (z : ℚ) :=
  round32_int z hz

/-- Closed form of `Binary32.compute`. -/
theorem compute32_paths (s : Binary32.Pid) (setPoint processVariable : F32) :
    (Binary32.compute s setPoint processVariable).paths =
      Binary32.clamp
        (F32.add (F32.add (Binary32.compute s setPoint processVariable).pPath
          (Binary32.compute s setPoint processVariable).iPath)
          (Binary32.compute s setPoint processVariable).dPath)
        (F32.ofInt s.m_lowerBound) (F32.ofInt s.m_upperBound) := rfl

theorem compute32_iPath (s : Binary32.Pid) (setPoint processVariable : F32) :
    (Binary32.compute s setPoint processVariable).self.m_IPath =
      Binary32.clamp
        (F32.add s.m_IPath
          (F32.mul (F32.mul (Binary32.compute s setPoint processVariable).error
            (F32.ofInt (Binary32.compute s setPoint processVariable).dt))
            (F32.ofNat s.m_IGain)))
        (F32.ofInt s.m_lowerBound) (F32.ofInt s.m_upperBound) := rfl

theorem compute32_iPath_eq (s : Binary32.Pid) (setPoint processVariable : F32) :
    (Binary32.compute s setPoint processVariable).iPath =
      Binary32.clamp
        (F32.add s.m_IPath
          (F32.mul (F32.mul (Binary32.compute s setPoint processVariable).error
            (F32.ofInt s.m_timer.time)) (F32.ofNat s.m_IGain)))
        (F32.ofInt s.m_lowerBound) (F32.ofInt s.m_upperBound) := rfl

theorem compute32_pPath_eq (s : Binary32.Pid) (setPoint processVariable : F32) :
    (Binary32.compute s setPoint processVariable).pPath =
      F32.mul (Binary32.compute s setPoint processVariable).error (F32.ofNat s.m_PGain) := rfl

/-! ## Evaluating a rounding -/

theorem roundEven_near (x : ℚ) (N : Int) (h1 : (N : ℚ) - 1 / 2 < x) (h2 : x < (N : ℚ) + 1 / 2) :
    roundEven x = N := by
  rcases le_or_lt (N : ℚ) x with hge | hlt
  · have hf : ⌊x⌋ = N := by
      rw [Int.floor_eq_iff]
      exact ⟨hge, by linarith⟩
    unfold roundEven
    rw [hf, if_pos (by linarith)]
  · have hf : ⌊x⌋ = N - 1 := by
      rw [Int.floor_eq_iff]
      push_cast
      exact ⟨by linarith, by linarith⟩
    unfold roundEven
    rw [hf]
    push_cast
    rw [if_neg (by linarith), if_pos (by linarith)]
    ring

theorem roundEven_half (f : Int) (hf : f % 2 = 0) : roundEven ((f : ℚ) + 1 / 2) = f := by
  have hfl : ⌊(f : ℚ) + 1 / 2⌋ = f := by
    rw [Int.floor_eq_iff]
    exact ⟨by linarith, by linarith⟩
  unfold roundEven
  rw [hfl, if_neg (by linarith), if_neg (by linarith), if_pos hf]

/-- A positive `q` in the binade of `2 ^ k` rounds to `N` units in the last place,
when `N` is the rounding of `q` divided by that unit. -/
theorem round32_eval (q : ℚ) (k u N : Int) (h1 : (2 : ℚ) ^ k ≤ q) (h2 : q < 2 ^ (k + 1))
    (hu : u = max (k - 23) (-149)) (hN : roundEven (q / 2 ^ u) = N)
    (hov : (N : ℚ) * 2 ^ u < 2 ^ 128) : round32 q = F32.fin ((N : ℚ) * 2 ^ u) := by
  have hq : 0 < q := lt_of_lt_of_le (two_zpow_pos k) h1
  have hue : ulpExp q = u := by rw [hu]; exact ulpExp_of_bounds q k h1 h2
  rw [round32_of_nonneg q (le_of_lt hq)]
  unfold roundMag
  rw [hue, hN, if_neg (not_le.mpr hov)]

theorem round32_2147483647 : round32 2147483647 = F32.fin 2147483648 := by
  have h := round32_eval 2147483647 30 7 16777216 (by norm_num) (by norm_num) (by decide)
    (roundEven_near _ _ (by norm_num) (by norm_num)) (by norm_num)
  rw [h]
  norm_num

theorem round32_16777217 : round32 16777217 = F32.fin 16777216 := by
  have hN : roundEven ((16777217 : ℚ) / 2 ^ (1 : Int)) = 8388608 := by
    have := roundEven_half 8388608 (by decide)
    have e : ((8388608 : Int) : ℚ) + 1 / 2 = (16777217 : ℚ) / 2 ^ (1 : Int) := by norm_num
    rwa [e] at this
  have h := round32_eval 16777217 24 1 8388608 (by norm_num) (by norm_num) (by decide) hN
    (by norm_num)
  rw [h]
  norm_num

/-- The defining equations of the `float` operations, as rewriting rules. -/
theorem f32_eval :
    (∀ a b : ℚ, F32.add (F32.fin a) (F32.fin b) = round32 (a + b)) ∧
    (∀ a b : ℚ, F32.sub (F32.fin a) (F32.fin b) = round32 (a - b)) ∧
    (∀ a b : ℚ, F32.mul (F32.fin a) (F32.fin b) = round32 (a * b)) ∧
    (∀ a b : ℚ, b ≠ 0 → F32.div (F32.fin a) (F32.fin b) = round32 (a / b)) ∧
    (∀ a : ℚ, F32.abs (F32.fin a) = F32.fin |a|) ∧
    (∀ a b : ℚ, F32.lt (F32.fin a) (F32.fin b) = decide (a < b)) ∧
    (∀ a b : ℚ, F32.le (F32.fin a) (F32.fin b) = decide (a ≤ b)) := by
  refine ⟨fun _ _ => rfl, fun _ _ => rfl, fun _ _ => rfl, ?_, fun _ => rfl, fun _ _ => rfl,
    fun _ _ => rfl⟩
  intro a b hb
  simp [F32.div, hb]

/-- The operations on non-finite operands, as rewriting rules. -/
theorem f32_eval_inf :
    (∀ a : ℚ, F32.add (F32.fin a) F32.pinf = F32.pinf) ∧
    (∀ a : ℚ, F32.add F32.pinf (F32.fin a) = F32.pinf) ∧
    (∀ a : ℚ, F32.add (F32.fin a) F32.ninf = F32.ninf) ∧
    (∀ a : ℚ, F32.add F32.ninf (F32.fin a) = F32.ninf) ∧
    F32.add F32.pinf F32.ninf = F32.nan ∧
    (∀ x : F32, F32.add x F32.nan = F32.nan) ∧
    (∀ x : F32, F32.add F32.nan x = F32.nan) ∧
    (∀ a : ℚ, 0 < a → F32.mul F32.pinf (F32.fin a) = F32.pinf) ∧
    F32.mul F32.pinf (F32.fin 0) = F32.nan ∧
    (∀ x : F32, F32.mul F32.nan x = F32.nan) ∧
    F32.abs F32.pinf = F32.pinf ∧
    (∀ x : F32, F32.lt F32.pinf x = false) ∧
    (∀ x : F32, F32.lt F32.nan x = false) ∧
    (∀ x : F32, F32.lt x F32.nan = false) ∧
    (∀ a : ℚ, F32.lt F32.ninf (F32.fin a) = true) ∧
    (∀ a : ℚ, F32.lt (F32.fin a) F32.ninf = false) ∧
    (∀ a : ℚ, F32.lt (F32.fin a) F32.pinf = true) := by
  refine ⟨fun _ => rfl, fun _ => rfl, fun _ => rfl, fun _ => rfl, rfl, ?_, ?_, ?_, ?_, ?_, rfl,
    ?_, ?_, ?_, fun _ => rfl, fun _ => rfl, fun _ => rfl⟩
  · intro x; cases x <;> rfl
  · intro x; cases x <;> rfl
  · intro a ha; simp [F32.mul, ha, ne_of_gt ha]
  · simp [F32.mul]
  · intro x; cases x <;> rfl
  · intro x; cases x <;> rfl
  · intro x; cases x <;> rfl
  · intro x; cases x <;> rfl

/-! ## Values of the format used in the examples -/

theorem round32_one : round32 1 = F32.fin 1 := by
  simpa using round32_int 1 (by norm_num)

theorem round32_small :
    round32 5 = F32.fin 5 ∧ round32 6 = F32.fin 6 ∧ round32 10 = F32.fin 10 ∧
    round32 11 = F32.fin 11 ∧ round32 4 = F32.fin 4 ∧
    round32 100 = F32.fin 100 ∧ round32 (-100) = F32.fin (-100) := by
  refine ⟨?_, ?_, ?_, ?_, ?_, ?_, ?_⟩
  · simpa using round32_int 5 (by norm_num)
  · simpa using round32_int 6 (by norm_num)
  · simpa using round32_int 10 (by norm_num)
  · simpa using round32_int 11 (by norm_num)
  · simpa using round32_int 4 (by norm_num)
  · simpa using round32_int 100 (by norm_num)
  · simpa using round32_int (-100) (by norm_num)

theorem round32_pow32 : round32 4294967296 = F32.fin 4294967296 := by
  have h := (round32_exact 1 32 (by norm_num) (by norm_num) (by norm_num)).1
  norm_num at h
  exact h

theorem round32_pow25 : round32 33554432 = F32.fin 33554432 := by
  have h := (round32_exact 1 25 (by norm_num) (by norm_num) (by norm_num)).1
  norm_num at h
  exact h

theorem round32_pow24 : round32 16777216 = F32.fin 16777216 := by
  simpa using round32_int 16777216 (by norm_num)

theorem round32_pow126 :
    round32 85070591730234615865843651857942052864
        = F32.fin 85070591730234615865843651857942052864 ∧
      round32 (-85070591730234615865843651857942052864)
        = F32.fin (-85070591730234615865843651857942052864) := by
  have h := round32_exact 1 126 (by norm_num) (by norm_num) (by norm_num)
  norm_num at h
  exact h

theorem round32_pow127 :
    round32 170141183460469231731687303715884105728
        = F32.fin 170141183460469231731687303715884105728 ∧
      round32 (-170141183460469231731687303715884105728)
        = F32.fin (-170141183460469231731687303715884105728) := by
  have h := round32_exact 1 127 (by norm_num) (by norm_num) (by norm_num)
  norm_num at h
  exact h

theorem round32_pow128 : round32 340282366920938463463374607431768211456 = F32.pinf ∧
    round32 (-340282366920938463463374607431768211456) = F32.ninf :=
  ⟨round32_overflow _ (by norm_num), round32_overflow_neg _ (by norm_num)⟩

theorem round32_pow129 : round32 (-680564733841876926926749214863536422912) = F32.ninf :=
  round32_overflow_neg _ (by norm_num)

/-! ## Bounding, in binary32 -/

/-- C1 (counterexample): first calls on freshly constructed controllers with
`lowerBound <= upperBound` whose returned value is not in
`[lowerBound, upperBound]`. With bounds [0, 2147483647], P=1 and setpoint
4294967296 the call returns 2147483648, the upper bound as `static_cast<float>`
rounds it. With bounds [-100, 100], P=1, I=1, setpoint `2^127` and process
variable `-2^127` (both values of the format) the error overflows to `+inf`,
`inf * 0` is NaN, and the call returns NaN. -/
theorem output_outside_integer_bounds :
    (0 : Int) ≤ 2147483647 ∧
    (Binary32.compute (Binary32.PID 1 0 0 0 2147483647 (F32.fin 0) true)
        (F32.fin 4294967296) (F32.fin 0)).paths = F32.fin 2147483648 ∧
    ¬ ((2147483648 : ℚ) ≤ ((2147483647 : Int) : ℚ)) ∧
    (-100 : Int) ≤ 100 ∧
    (F32.fin 170141183460469231731687303715884105728).isFloat = true ∧
    (F32.fin (-170141183460469231731687303715884105728)).isFloat = true ∧
    (Binary32.compute (Binary32.PID 1 1 0 (-100) 100 (F32.fin 0) true)
        (F32.fin 170141183460469231731687303715884105728)
        (F32.fin (-170141183460469231731687303715884105728))).error = F32.pinf ∧
    (Binary32.compute (Binary32.PID 1 1 0 (-100) 100 (F32.fin 0) true)
        (F32.fin 170141183460469231731687303715884105728)
        (F32.fin (-170141183460469231731687303715884105728))).paths = F32.nan := by
  refine ⟨by decide, ?_, by norm_num, by decide, ?_, ?_, ?_, ?_⟩
  · norm_num [Binary32.compute, Binary32.PID, Binary32.computePPath, Binary32.computeIPath,
      Binary32.computeDPathOnPV, Binary32.clamp, F32.min, F32.max, f32_eval, f32_eval_inf,
      F32.ofInt, F32.ofNat, Timer.fresh, Timer.stop, Timer.elapsed_time, round32_zero,
      round32_one, round32_pow32, round32_2147483647]
  · simp [F32.isFloat, round32_pow127.1]
  · simp [F32.isFloat, round32_pow127.2]
  · norm_num [Binary32.compute, Binary32.PID, f32_eval, f32_eval_inf, round32_pow128]
  · norm_num [Binary32.compute, Binary32.PID, Binary32.computePPath, Binary32.computeIPath,
      Binary32.computeDPathOnPV, Binary32.clamp, F32.min, F32.max, f32_eval, f32_eval_inf,
      F32.ofInt, F32.ofNat, Timer.fresh, Timer.stop, Timer.elapsed_time, round32_zero,
      round32_one, round32_pow128, round32_small]

/-- C1 (amended): for every controller state with `lowerBound <= upperBound`,
every setpoint, process variable (any `float`, NaN and infinities included) and
timer reading, the value returned by `compute` is NaN or lies in
`[float(lowerBound), float(upperBound)]`, the bounds as `static_cast<float>`
converts them; a bound of magnitude at most `2^24` is converted exactly. -/
theorem compute32_output_within (s : Binary32.Pid) (setPoint processVariable : F32)
    (h : s.m_lowerBound ≤ s.m_upperBound) :
    ((Binary32.compute s setPoint processVariable).paths = F32.nan ∨
      (F32.le (F32.ofInt s.m_lowerBound) (Binary32.compute s setPoint processVariable).paths
          = true ∧
        F32.le (Binary32.compute s setPoint processVariable).paths (F32.ofInt s.m_upperBound)
          = true)) ∧
    (|s.m_lowerBound| ≤ 2 ^ 24 → F32.ofInt s.m_lowerBound = F32.fin (s.m_lowerBound : ℚ)) ∧
    (|s.m_upperBound| ≤ 2 ^ 24 → F32.ofInt s.m_upperBound = F32.fin (s.m_upperBound : ℚ)) :=
  ⟨clamp32_within _ _ _ (ofInt_mono _ _ h), ofInt_exact _, ofInt_exact _⟩

theorem compute32_output_within_witness :
    (Binary32.PID 2 1 1 (-100) 100 (F32.fin 0) true).m_lowerBound
      ≤ (Binary32.PID 2 1 1 (-100) 100 (F32.fin 0) true).m_upperBound ∧
    ((Binary32.compute (Binary32.PID 2 1 1 (-100) 100 (F32.fin 0) true) (F32.fin 1000)
        (F32.fin 0)).paths = F32.nan ∨
      (F32.le (F32.fin (-100)) (Binary32.compute (Binary32.PID 2 1 1 (-100) 100 (F32.fin 0) true)
          (F32.fin 1000) (F32.fin 0)).paths = true ∧
        F32.le (Binary32.compute (Binary32.PID 2 1 1 (-100) 100 (F32.fin 0) true)
          (F32.fin 1000) (F32.fin 0)).paths (F32.fin 100) = true)) := by
  obtain ⟨hw, hlo, hhi⟩ := compute32_output_within
    (Binary32.PID 2 1 1 (-100) 100 (F32.fin 0) true) (F32.fin 1000) (F32.fin 0) (by decide)
  have e1 : F32.ofInt (Binary32.PID 2 1 1 (-100) 100 (F32.fin 0) true).m_lowerBound
      = F32.fin (-100) := by
    rw [hlo (by decide)]
    simp [Binary32.PID]
  have e2 : F32.ofInt (Binary32.PID 2 1 1 (-100) 100 (F32.fin 0) true).m_upperBound
      = F32.fin 100 := by
    rw [hhi (by decide)]
    simp [Binary32.PID]
  rw [e1, e2] at hw
  exact ⟨by decide, hw⟩

/-! ## The accumulator, in binary32 -/

theorem step32_bounds (s : Binary32.Pid) (op : Binary32.Op) :
    (Binary32.step s op).m_lowerBound = s.m_lowerBound ∧
      (Binary32.step s op).m_upperBound = s.m_upperBound := by
  cases op <;> exact ⟨rfl, rfl⟩

theorem run32_bounds (ops : List Binary32.Op) (s : Binary32.Pid) :
    (Binary32.run s ops).m_lowerBound = s.m_lowerBound ∧
      (Binary32.run s ops).m_upperBound = s.m_upperBound := by
  induction ops generalizing s with
  | nil => exact ⟨rfl, rfl⟩
  | cons op ops ih =>
    have h1 := step32_bounds s op
    have h2 := ih (Binary32.step s op)
    exact ⟨h2.1.trans h1.1, h2.2.trans h1.2⟩

theorem run32_append (l1 l2 : List Binary32.Op) (s : Binary32.Pid) :
    Binary32.run s (l1 ++ l2) = Binary32.run (Binary32.run s l1) l2 := by
  induction l1 generalizing s with
  | nil => rfl
  | cons op l1 ih => exact ih (Binary32.step s op)

/-- The accumulator stored by `compute` is NaN or within the converted bounds. -/
theorem compute32_iPath_within (s : Binary32.Pid) (setPoint processVariable : F32)
    (h : s.m_lowerBound ≤ s.m_upperBound) :
    F32.within (Binary32.compute s setPoint processVariable).self.m_IPath
      (F32.ofInt s.m_lowerBound) (F32.ofInt s.m_upperBound) :=
  clamp32_within _ _ _ (ofInt_mono _ _ h)

/-- An operation other than `reset` keeps the accumulator NaN or within the
converted bounds. -/
theorem step32_keeps_within (s : Binary32.Pid) (op : Binary32.Op)
    (h : s.m_lowerBound ≤ s.m_upperBound) (hop : op.isReset = false)
    (hin : F32.within s.m_IPath (F32.ofInt s.m_lowerBound) (F32.ofInt s.m_upperBound)) :
    F32.within (Binary32.step s op).m_IPath (F32.ofInt s.m_lowerBound)
      (F32.ofInt s.m_upperBound) := by
  cases op with
  | compute setPoint processVariable => exact compute32_iPath_within s _ _ h
  | updateProportionalGain p => exact hin
  | updateIntegralGain i => exact hin
  | updateDerivativeGain d => exact hin
  | updateDeadzone deadzone => exact hin
  | reset => simp [Binary32.Op.isReset] at hop
  | elapse d => exact hin

/-- When 0 is within the integer bounds, every operation keeps the accumulator
NaN or within the converted bounds. -/
theorem step32_keeps_within_zero (s : Binary32.Pid) (op : Binary32.Op)
    (h : s.m_lowerBound ≤ s.m_upperBound) (hlo : s.m_lowerBound ≤ 0) (hhi : 0 ≤ s.m_upperBound)
    (hin : F32.within s.m_IPath (F32.ofInt s.m_lowerBound) (F32.ofInt s.m_upperBound)) :
    F32.within (Binary32.step s op).m_IPath (F32.ofInt s.m_lowerBound)
      (F32.ofInt s.m_upperBound) := by
  cases hr : op.isReset with
  | false => exact step32_keeps_within s op h hr hin
  | true =>
    cases op <;> simp [Binary32.Op.isReset] at hr
    right
    have h1 := ofInt_mono _ _ hlo
    have h2 := ofInt_mono _ _ hhi
    rw [ofInt_zero] at h1 h2
    exact ⟨h1, h2⟩

theorem run32_keeps_within (ops : List Binary32.Op) (s : Binary32.Pid)
    (h : s.m_lowerBound ≤ s.m_upperBound) (hops : ∀ op ∈ ops, op.isReset = false)
    (hin : F32.within s.m_IPath (F32.ofInt s.m_lowerBound) (F32.ofInt s.m_upperBound)) :
    F32.within (Binary32.run s ops).m_IPath (F32.ofInt s.m_lowerBound)
      (F32.ofInt s.m_upperBound) := by
  induction ops generalizing s with
  | nil => exact hin
  | cons op ops ih =>
    have hb := step32_bounds s op
    have hstep := step32_keeps_within s op h (hops op (List.mem_cons_self _ _)) hin
    have := ih (Binary32.step s op) (by rw [hb.1, hb.2]; exact h)
      (fun o ho => hops o (List.mem_cons_of_mem _ ho)) (by rw [hb.1, hb.2]; exact hstep)
    rw [hb.1, hb.2] at this
    exact this

theorem run32_keeps_within_zero (ops : List Binary32.Op) (s : Binary32.Pid)
    (h : s.m_lowerBound ≤ s.m_upperBound) (hlo : s.m_lowerBound ≤ 0) (hhi : 0 ≤ s.m_upperBound)
    (hin : F32.within s.m_IPath (F32.ofInt s.m_lowerBound) (F32.ofInt s.m_upperBound)) :
    F32.within (Binary32.run s ops).m_IPath (F32.ofInt s.m_lowerBound)
      (F32.ofInt s.m_upperBound) := by
  induction ops generalizing s with
  | nil => exact hin
  | cons op ops ih =>
    have hb := step32_bounds s op
    have hstep := step32_keeps_within_zero s op h hlo hhi hin
    have := ih (Binary32.step s op) (by rw [hb.1, hb.2]; exact h) (by rw [hb.1]; exact hlo)
      (by rw [hb.2]; exact hhi) (by rw [hb.1, hb.2]; exact hstep)
    rw [hb.1, hb.2] at this
    exact this

theorem run32_after_compute (s : Binary32.Pid) (setPoint processVariable : F32)
    (post : List Binary32.Op) (h : s.m_lowerBound ≤ s.m_upperBound)
    (hpost : ∀ op ∈ post, op.isReset = false) :
    F32.within (Binary32.run s (Binary32.Op.compute setPoint processVariable :: post)).m_IPath
      (F32.ofInt s.m_lowerBound) (F32.ofInt s.m_upperBound) :=
  run32_keeps_within post (Binary32.step s (Binary32.Op.compute setPoint processVariable)) h
    hpost (compute32_iPath_within s setPoint processVariable h)

theorem run32_after_compute_zero (s : Binary32.Pid) (setPoint processVariable : F32)
    (post : List Binary32.Op) (h : s.m_lowerBound ≤ s.m_upperBound)
    (hlo : s.m_lowerBound ≤ 0) (hhi : 0 ≤ s.m_upperBound) :
    F32.within (Binary32.run s (Binary32.Op.compute setPoint processVariable :: post)).m_IPath
      (F32.ofInt s.m_lowerBound) (F32.ofInt s.m_upperBound) :=
  run32_keeps_within_zero post (Binary32.step s (Binary32.Op.compute setPoint processVariable)) h
    hlo hhi (compute32_iPath_within s setPoint processVariable h)

/-- C2 (counterexample): stored accumulators outside `[lowerBound, upperBound]`
on controllers with `lowerBound <= upperBound`. With bounds [5, 10], `compute`
followed by `reset()` leaves the accumulator at 0. With bounds
[16777217, 33554432] a first `compute` stores 16777216, the lower bound as
`static_cast<float>` rounds it. With bounds [-100, 100] and I=1, the first
`compute` with setpoint `2^127` and process variable `-2^127` stores NaN
(`inf * 0`). -/
theorem accumulator_outside_integer_bounds :
    (Binary32.run (Binary32.PID 1 1 1 5 10 (F32.fin 0) true)
        [Binary32.Op.compute (F32.fin 6) (F32.fin 0), Binary32.Op.reset]).m_IPath = F32.fin 0 ∧
    F32.le (F32.ofInt 5) (F32.fin 0) = false ∧
    (16777217 : Int) ≤ 33554432 ∧
    (Binary32.compute (Binary32.PID 1 0 0 16777217 33554432 (F32.fin 0) true)
        (F32.fin 0) (F32.fin 0)).self.m_IPath = F32.fin 16777216 ∧
    ¬ (((16777217 : Int) : ℚ) ≤ (16777216 : ℚ)) ∧
    (Binary32.compute (Binary32.PID 1 1 0 (-100) 100 (F32.fin 0) true)
        (F32.fin 170141183460469231731687303715884105728)
        (F32.fin (-170141183460469231731687303715884105728))).self.m_IPath = F32.nan := by
  refine ⟨rfl, ?_, by decide, ?_, by norm_num, ?_⟩
  · norm_num [F32.ofInt, f32_eval, round32_small]
  · norm_num [Binary32.compute, Binary32.PID, Binary32.computeIPath, Binary32.clamp, F32.min,
      F32.max, f32_eval, f32_eval_inf, F32.ofInt, F32.ofNat, Timer.fresh, Timer.stop, Timer.elapsed_time,
      round32_zero, round32_one, round32_pow25, round32_pow24, round32_16777217]
  · norm_num [Binary32.compute, Binary32.PID, Binary32.computeIPath, Binary32.clamp, F32.min,
      F32.max, f32_eval, f32_eval_inf, F32.ofInt, F32.ofNat, Timer.fresh, Timer.stop, Timer.elapsed_time,
      round32_zero, round32_one, round32_pow128, round32_small]

/-- C2 (amended): for every controller with `lowerBound <= upperBound`, the
accumulator `m_IPath` stored by any `compute` call, from any prior state, is NaN
or lies in `[float(lowerBound), float(upperBound)]`, the bounds as
`static_cast<float>` converts them; it still is at the end of every run of
`compute`, mutator, `reset` and waiting steps in which a `compute` call is
followed by no `reset()`; and when `lowerBound <= 0 <= upperBound`, at the end of
every run that contains a `compute` call, `reset()` calls included. -/
theorem integralPath32_within (s : Binary32.Pid) (h : s.m_lowerBound ≤ s.m_upperBound) :
    (∀ setPoint processVariable,
      F32.within (Binary32.compute s setPoint processVariable).self.m_IPath
        (F32.ofInt s.m_lowerBound) (F32.ofInt s.m_upperBound)) ∧
    (∀ (pre post : List Binary32.Op) (setPoint processVariable : F32),
      (∀ op ∈ post, op.isReset = false) →
      F32.within
        (Binary32.run s (pre ++ Binary32.Op.compute setPoint processVariable :: post)).m_IPath
        (F32.ofInt s.m_lowerBound) (F32.ofInt s.m_upperBound)) ∧
    (s.m_lowerBound ≤ 0 → 0 ≤ s.m_upperBound →
      ∀ (pre post : List Binary32.Op) (setPoint processVariable : F32),
      F32.within
        (Binary32.run s (pre ++ Binary32.Op.compute setPoint processVariable :: post)).m_IPath
        (F32.ofInt s.m_lowerBound) (F32.ofInt s.m_upperBound)) := by
  refine ⟨fun sp pv => compute32_iPath_within s sp pv h, ?_, ?_⟩
  · intro pre post sp pv hpost
    have hb := run32_bounds pre s
    have := run32_after_compute (Binary32.run s pre) sp pv post (by rw [hb.1, hb.2]; exact h)
      hpost
    rw [hb.1, hb.2] at this
    rw [run32_append]
    exact this
  · intro hlo hhi pre post sp pv
    have hb := run32_bounds pre s
    have := run32_after_compute_zero (Binary32.run s pre) sp pv post
      (by rw [hb.1, hb.2]; exact h) (by rw [hb.1]; exact hlo) (by rw [hb.2]; exact hhi)
    rw [hb.1, hb.2] at this
    rw [run32_append]
    exact this

theorem integralPath32_within_witness :
    (Binary32.PID 1 1 1 (-10) 10 (F32.fin 0) true).m_lowerBound
      ≤ (Binary32.PID 1 1 1 (-10) 10 (F32.fin 0) true).m_upperBound ∧
    F32.within
      (Binary32.run (Binary32.PID 1 1 1 (-10) 10 (F32.fin 0) true)
        ([Binary32.Op.updateIntegralGain 3] ++ Binary32.Op.compute (F32.fin 5) (F32.fin 0) ::
          [Binary32.Op.elapse 7, Binary32.Op.updateDeadzone (F32.fin 2)])).m_IPath
      (F32.ofInt (-10)) (F32.ofInt 10) ∧
    F32.within
      (Binary32.run (Binary32.PID 1 1 1 (-10) 10 (F32.fin 0) true)
        ([Binary32.Op.reset] ++ Binary32.Op.compute (F32.fin 5) (F32.fin 0) ::
          [Binary32.Op.reset, Binary32.Op.elapse 7])).m_IPath
      (F32.ofInt (-10)) (F32.ofInt 10) :=
  ⟨by decide,
    (integralPath32_within (Binary32.PID 1 1 1 (-10) 10 (F32.fin 0) true) (by decide)).2.1
      [Binary32.Op.updateIntegralGain 3] [Binary32.Op.elapse 7,
        Binary32.Op.updateDeadzone (F32.fin 2)] (F32.fin 5) (F32.fin 0)
      (by simp [Binary32.Op.isReset]),
    (integralPath32_within (Binary32.PID 1 1 1 (-10) 10 (F32.fin 0) true) (by decide)).2.2
      (by decide) (by decide) [Binary32.Op.reset] [Binary32.Op.reset, Binary32.Op.elapse 7]
      (F32.fin 5) (F32.fin 0)⟩

/-! ## Arithmetic facts on binary32 values -/

theorem ofNat_finite (n : Nat) (hn : n < 2 ^ 32) : ∃ g : ℚ, F32.ofNat n = F32.fin g ∧ 0 ≤ g := by
  have h0 : (0 : ℚ) ≤ (n : ℚ) := Nat.cast_nonneg n
  have hle : (n : ℚ) ≤ 4294967296 := by
    have : (n : ℚ) < 4294967296 := by exact_mod_cast hn
    linarith
  have hm := round32_mono (n : ℚ) 4294967296 hle
  rw [round32_pow32] at hm
  unfold F32.ofNat
  rw [round32_of_nonneg _ h0] at hm ⊢
  split_ifs at hm ⊢ with h1
  · simp [F32.le] at hm
  · exact ⟨_, rfl, roundMag_nonneg _ h0⟩

theorem ofNat_nonneg (n : Nat) : F32.le (F32.fin 0) (F32.ofNat n) = true := by
  have := round32_mono 0 (n : ℚ) (Nat.cast_nonneg n)
  rwa [round32_zero] at this

theorem ofInt_nonneg (z : Int) (hz : 0 ≤ z) : F32.le (F32.fin 0) (F32.ofInt z) = true := by
  have := round32_mono 0 (z : ℚ) (by exact_mod_cast hz)
  rwa [round32_zero] at this

theorem ofInt_pos (z : Int) (hz : 0 < z) : F32.le (F32.fin 1) (F32.ofInt z) = true := by
  have h1 : (1 : ℚ) ≤ (z : ℚ) := by exact_mod_cast hz
  have := round32_mono 1 (z : ℚ) h1
  rwa [round32_one] at this

theorem ofInt_isFloat (z : Int) : (F32.ofInt z).isFloat = true := round32_isFloat _

theorem add_isFloat (x y : F32) : (F32.add x y).isFloat = true := by
  cases x <;> cases y <;> first | exact round32_isFloat _ | rfl

theorem mul_isFloat (x y : F32) : (F32.mul x y).isFloat = true := by
  cases x <;> cases y <;> simp only [F32.mul] <;>
    first | exact round32_isFloat _ | rfl | (split_ifs <;> rfl)

/-- Adding zero changes no value of the format. -/
theorem add_zero32 (x : F32) (hx : x.isFloat = true) : F32.add x (F32.fin 0) = x := by
  cases x with
  | fin a =>
    have : round32 a = F32.fin a := by simpa [F32.isFloat] using hx
    simp [F32.add, this]
  | pinf => rfl
  | ninf => rfl
  | nan => rfl

theorem mul_fin_zero (e : ℚ) : F32.mul (F32.fin e) (F32.fin 0) = F32.fin 0 := by
  simp [F32.mul, round32_zero]

theorem zero_mul_fin (g : ℚ) : F32.mul (F32.fin 0) (F32.fin g) = F32.fin 0 := by
  simp [F32.mul, round32_zero]

theorem add_fin_zero_zero : F32.add (F32.fin 0) (F32.fin 0) = F32.fin 0 := by
  simp [F32.add, round32_zero]

/-! ## Reset and first call, in binary32 -/

/-- The first call: with `dt = 0`, a zero accumulator, a finite error and a
`uint32_t` integral gain, the integral summand is the clamped zero. -/
theorem first_iPath32 (acc : F32) (e : ℚ) (i : Nat) (lo hi : Int) (hacc : acc = F32.fin 0)
    (hi32 : i < 2 ^ 32) (hlo : lo ≤ 0) (hhi : 0 ≤ hi) :
    Binary32.clamp (F32.add acc (F32.mul (F32.mul (F32.fin e) (F32.ofInt 0)) (F32.ofNat i)))
      (F32.ofInt lo) (F32.ofInt hi) = F32.fin 0 := by
  obtain ⟨g, hg, -⟩ := ofNat_finite i hi32
  rw [hacc, ofInt_zero, mul_fin_zero, hg, zero_mul_fin, add_fin_zero_zero]
  have h1 := ofInt_mono _ _ hlo
  have h2 := ofInt_mono _ _ hhi
  rw [ofInt_zero] at h1 h2
  exact clamp32_of_within _ _ _ h1 h2

/-- C8 (counterexample): first calls after construction whose integral summand
is not 0 and whose result is not `clamp(error * proportionalGain)`. With gains
1, 1, 1 and bounds [5, 10], `compute(6, 0)` has `dt = 0` and error 6, integral
summand 5 (the zero accumulator clamped into [5, 10]) and returns 10, where
`clamp(error * proportionalGain, 5, 10)` is 6. With bounds [-100, 100], P=1, I=1,
`compute(2^127, -2^127)` has error `+inf`, integral summand NaN (`inf * 0`) and
returns NaN, where `clamp(error * proportionalGain, -100, 100)` is 100. -/
theorem first_compute32_integral_nonzero :
    (5 : Int) ≤ 10 ∧
    (Binary32.compute (Binary32.PID 1 1 1 5 10 (F32.fin 0) true) (F32.fin 6) (F32.fin 0)).dt
      = 0 ∧
    (Binary32.compute (Binary32.PID 1 1 1 5 10 (F32.fin 0) true) (F32.fin 6) (F32.fin 0)).error
      = F32.fin 6 ∧
    (Binary32.compute (Binary32.PID 1 1 1 5 10 (F32.fin 0) true) (F32.fin 6) (F32.fin 0)).iPath
      = F32.fin 5 ∧
    (Binary32.compute (Binary32.PID 1 1 1 5 10 (F32.fin 0) true) (F32.fin 6) (F32.fin 0)).dPath
      = F32.fin 0 ∧
    (Binary32.compute (Binary32.PID 1 1 1 5 10 (F32.fin 0) true) (F32.fin 6) (F32.fin 0)).paths
      = F32.fin 10 ∧
    Binary32.clamp (F32.mul (F32.fin 6) (F32.ofNat 1)) (F32.ofInt 5) (F32.ofInt 10) = F32.fin 6 ∧
    (-100 : Int) ≤ 0 ∧ (0 : Int) ≤ 100 ∧
    (Binary32.compute (Binary32.PID 1 1 0 (-100) 100 (F32.fin 0) true)
        (F32.fin 170141183460469231731687303715884105728)
        (F32.fin (-170141183460469231731687303715884105728))).error = F32.pinf ∧
    (Binary32.compute (Binary32.PID 1 1 0 (-100) 100 (F32.fin 0) true)
        (F32.fin 170141183460469231731687303715884105728)
        (F32.fin (-170141183460469231731687303715884105728))).iPath = F32.nan ∧
    (Binary32.compute (Binary32.PID 1 1 0 (-100) 100 (F32.fin 0) true)
        (F32.fin 170141183460469231731687303715884105728)
        (F32.fin (-170141183460469231731687303715884105728))).paths = F32.nan ∧
    Binary32.clamp (F32.mul F32.pinf (F32.ofNat 1)) (F32.ofInt (-100)) (F32.ofInt 100)
      = F32.fin 100 := by
  refine ⟨by decide, rfl, ?_, ?_, rfl, ?_, ?_, by decide, by decide, ?_, ?_, ?_, ?_⟩
  · norm_num [Binary32.compute, Binary32.PID, f32_eval, f32_eval_inf, round32_small]
  · norm_num [Binary32.compute, Binary32.PID, Binary32.computeIPath, Binary32.clamp, F32.min,
      F32.max, f32_eval, f32_eval_inf, F32.ofInt, F32.ofNat, Timer.fresh, Timer.stop, Timer.elapsed_time,
      round32_zero, round32_one, round32_small]
  · norm_num [Binary32.compute, Binary32.PID, Binary32.computePPath, Binary32.computeIPath,
      Binary32.computeDPathOnPV, Binary32.clamp, F32.min, F32.max, f32_eval, f32_eval_inf,
      F32.ofInt, F32.ofNat, Timer.fresh, Timer.stop, Timer.elapsed_time, round32_zero,
      round32_one, round32_small]
  · norm_num [Binary32.clamp, F32.min, F32.max, f32_eval, f32_eval_inf, F32.ofInt, F32.ofNat,
      round32_one, round32_small]
  · norm_num [Binary32.compute, Binary32.PID, f32_eval, f32_eval_inf, round32_pow128]
  · norm_num [Binary32.compute, Binary32.PID, Binary32.computeIPath, Binary32.clamp, F32.min,
      F32.max, f32_eval, f32_eval_inf, F32.ofInt, F32.ofNat, Timer.fresh, Timer.stop, Timer.elapsed_time,
      round32_zero, round32_one, round32_pow128, round32_small]
  · norm_num [Binary32.compute, Binary32.PID, Binary32.computePPath, Binary32.computeIPath,
      Binary32.computeDPathOnPV, Binary32.clamp, F32.min, F32.max, f32_eval, f32_eval_inf,
      F32.ofInt, F32.ofNat, Timer.fresh, Timer.stop, Timer.elapsed_time, round32_zero,
      round32_one, round32_pow128, round32_small]
  · norm_num [Binary32.clamp, F32.min, F32.max, f32_eval, f32_eval_inf, F32.ofInt, F32.ofNat,
      round32_one, round32_small]

/-- C8 (amended): for every controller with `lowerBound <= 0 <= upperBound` and
a `uint32_t` integral gain, the first `compute` after construction, and the
first `compute` after `reset()`, runs with `dt = 0` and derivative summand 0;
and when its post-deadzone error is finite (neither an infinity nor NaN), its
integral summand is 0 and it returns `clamp(error * proportionalGain,
float(lowerBound), float(upperBound))`. -/
theorem first_compute32_terms (proportionalGain intregralGain derivativeGain : Nat)
    (lowerBound upperBound : Int) (deadzone : F32) (antiKickback : Bool) (s : Binary32.Pid)
    (setPoint processVariable : F32)
    (hlo : lowerBound ≤ 0) (hhi : 0 ≤ upperBound) (hi32 : intregralGain < 2 ^ 32)
    (hslo : s.m_lowerBound ≤ 0) (hshi : 0 ≤ s.m_upperBound) (hsi : s.m_IGain < 2 ^ 32) :
    ((Binary32.compute (Binary32.PID proportionalGain intregralGain derivativeGain lowerBound
          upperBound deadzone antiKickback) setPoint processVariable).dt = 0 ∧
      (Binary32.compute (Binary32.PID proportionalGain intregralGain derivativeGain lowerBound
          upperBound deadzone antiKickback) setPoint processVariable).dPath = F32.fin 0 ∧
      ∀ e : ℚ,
        (Binary32.compute (Binary32.PID proportionalGain intregralGain derivativeGain lowerBound
          upperBound deadzone antiKickback) setPoint processVariable).error = F32.fin e →
        (Binary32.compute (Binary32.PID proportionalGain intregralGain derivativeGain lowerBound
          upperBound deadzone antiKickback) setPoint processVariable).iPath = F32.fin 0 ∧
        (Binary32.compute (Binary32.PID proportionalGain intregralGain derivativeGain lowerBound
          upperBound deadzone antiKickback) setPoint processVariable).paths =
          Binary32.clamp (F32.mul (F32.fin e) (F32.ofNat proportionalGain))
            (F32.ofInt lowerBound) (F32.ofInt upperBound)) ∧
    ((Binary32.compute (Binary32.reset s) setPoint processVariable).dt = 0 ∧
      (Binary32.compute (Binary32.reset s) setPoint processVariable).dPath = F32.fin 0 ∧
      ∀ e : ℚ,
        (Binary32.compute (Binary32.reset s) setPoint processVariable).error = F32.fin e →
        (Binary32.compute (Binary32.reset s) setPoint processVariable).iPath = F32.fin 0 ∧
        (Binary32.compute (Binary32.reset s) setPoint processVariable).paths =
          Binary32.clamp (F32.mul (F32.fin e) (F32.ofNat s.m_PGain))
            (F32.ofInt s.m_lowerBound) (F32.ofInt s.m_upperBound)) := by
  constructor
  · refine ⟨rfl, ?_, ?_⟩
    · cases antiKickback <;> rfl
    · intro e he
      have hI : (Binary32.compute (Binary32.PID proportionalGain intregralGain derivativeGain
          lowerBound upperBound deadzone antiKickback) setPoint processVariable).iPath
          = F32.fin 0 := by
        rw [compute32_iPath_eq, he]
        exact first_iPath32 _ e _ _ _ rfl hi32 hlo hhi
      have hD : (Binary32.compute (Binary32.PID proportionalGain intregralGain derivativeGain
          lowerBound upperBound deadzone antiKickback) setPoint processVariable).dPath
          = F32.fin 0 := by
        cases antiKickback <;> rfl
      refine ⟨hI, ?_⟩
      rw [compute32_paths, hI, hD, compute32_pPath_eq, he, add_zero32 _ (mul_isFloat _ _),
        add_zero32 _ (mul_isFloat _ _)]
      rfl
  · refine ⟨rfl, ?_, ?_⟩
    · cases hk : s.m_antiKickback <;> simp [Binary32.compute, Binary32.reset,
        Binary32.computeIPath, Binary32.computeDPathOnPV, Binary32.computeDPathOnError,
        Timer.stop, Timer.reset, Timer.elapsed_time, hk]
    · intro e he
      have hI : (Binary32.compute (Binary32.reset s) setPoint processVariable).iPath
          = F32.fin 0 := by
        rw [compute32_iPath_eq, he]
        exact first_iPath32 _ e _ _ _ rfl hsi hslo hshi
      have hD : (Binary32.compute (Binary32.reset s) setPoint processVariable).dPath
          = F32.fin 0 := by
        cases hk : s.m_antiKickback <;> simp [Binary32.compute, Binary32.reset,
          Binary32.computeIPath, Binary32.computeDPathOnPV, Binary32.computeDPathOnError,
          Timer.stop, Timer.reset, Timer.elapsed_time, hk]
      refine ⟨hI, ?_⟩
      rw [compute32_paths, hI, hD, compute32_pPath_eq, he, add_zero32 _ (mul_isFloat _ _),
        add_zero32 _ (mul_isFloat _ _)]
      rfl

theorem first_compute32_terms_witness :
    (-100 : Int) ≤ 0 ∧ (0 : Int) ≤ 100 ∧ (1 : Nat) < 2 ^ 32 ∧
    (Binary32.compute (Binary32.PID 2 1 1 (-100) 100 (F32.fin 0) true) (F32.fin 10)
      (F32.fin 0)).error = F32.fin 10 ∧
    (Binary32.compute (Binary32.PID 2 1 1 (-100) 100 (F32.fin 0) true) (F32.fin 10)
      (F32.fin 0)).dt = 0 ∧
    (Binary32.compute (Binary32.PID 2 1 1 (-100) 100 (F32.fin 0) true) (F32.fin 10)
      (F32.fin 0)).dPath = F32.fin 0 ∧
    (Binary32.compute (Binary32.PID 2 1 1 (-100) 100 (F32.fin 0) true) (F32.fin 10)
      (F32.fin 0)).iPath = F32.fin 0 ∧
    (Binary32.compute (Binary32.PID 2 1 1 (-100) 100 (F32.fin 0) true) (F32.fin 10)
      (F32.fin 0)).paths
      = Binary32.clamp (F32.mul (F32.fin 10) (F32.ofNat 2)) (F32.ofInt (-100)) (F32.ofInt 100) ∧
    (Binary32.compute
      (Binary32.reset { Binary32.PID 2 3 4 (-20) 30 (F32.fin 1) false with m_IPath := F32.fin 9 })
      (F32.fin 10) (F32.fin 0)).iPath = F32.fin 0 := by
  have he : (Binary32.compute (Binary32.PID 2 1 1 (-100) 100 (F32.fin 0) true) (F32.fin 10)
      (F32.fin 0)).error = F32.fin 10 := by
    norm_num [Binary32.compute, Binary32.PID, f32_eval, f32_eval_inf, round32_small]
  have he2 : (Binary32.compute
      (Binary32.reset { Binary32.PID 2 3 4 (-20) 30 (F32.fin 1) false with m_IPath := F32.fin 9 })
      (F32.fin 10) (F32.fin 0)).error = F32.fin 10 := by
    norm_num [Binary32.compute, Binary32.PID, Binary32.reset, f32_eval, f32_eval_inf,
      round32_small]
  obtain ⟨⟨h1, h2, h3⟩, -, -, h4⟩ := first_compute32_terms 2 1 1 (-100) 100 (F32.fin 0) true
    { Binary32.PID 2 3 4 (-20) 30 (F32.fin 1) false with m_IPath := F32.fin 9 }
    (F32.fin 10) (F32.fin 0) (by decide) (by decide) (by norm_num) (by decide) (by decide)
    (by norm_num [Binary32.PID])
  exact ⟨by decide, by decide, by norm_num, he, h1, h2, (h3 10 he).1, (h3 10 he).2,
    (h4 10 he2).1⟩

/-! ## Anti-windup, in binary32 -/

theorem mul_nonneg32 (x y : F32) (hx : F32.le (F32.fin 0) x = true)
    (hy : F32.le (F32.fin 0) y = true) :
    F32.mul x y = F32.nan ∨ F32.le (F32.fin 0) (F32.mul x y) = true := by
  cases x with
  | fin a =>
    cases y with
    | fin b =>
      right
      simp only [F32.le, decide_eq_true_eq] at hx hy
      have := round32_mono 0 (a * b) (mul_nonneg hx hy)
      rwa [round32_zero] at this
    | pinf =>
      simp only [F32.le, decide_eq_true_eq] at hx
      simp only [F32.mul]
      split_ifs with h1 h2
      · left; rfl
      · right; rfl
      · exact absurd (lt_of_le_of_ne hx (Ne.symm h1)) h2
    | ninf => simp [F32.le] at hy
    | nan => simp [F32.le] at hy
  | pinf =>
    cases y with
    | fin b =>
      simp only [F32.le, decide_eq_true_eq] at hy
      simp only [F32.mul]
      split_ifs with h1 h2
      · left; rfl
      · right; rfl
      · exact absurd (lt_of_le_of_ne hy (Ne.symm h1)) h2
    | pinf => right; rfl
    | ninf => simp [F32.le] at hy
    | nan => simp [F32.le] at hy
  | ninf => simp [F32.le] at hx
  | nan => simp [F32.le] at hx

theorem mul_nonpos32 (x y : F32) (hx : F32.le x (F32.fin 0) = true)
    (hy : F32.le (F32.fin 0) y = true) :
    F32.mul x y = F32.nan ∨ F32.le (F32.mul x y) (F32.fin 0) = true := by
  cases x with
  | fin a =>
    cases y with
    | fin b =>
      right
      simp only [F32.le, decide_eq_true_eq] at hx hy
      have := round32_mono (a * b) 0 (mul_nonpos_of_nonpos_of_nonneg hx hy)
      rwa [round32_zero] at this
    | pinf =>
      simp only [F32.le, decide_eq_true_eq] at hx
      simp only [F32.mul]
      split_ifs with h1 h2
      · left; rfl
      · exact absurd hx (not_le.mpr h2)
      · right; rfl
    | ninf => simp [F32.le] at hy
    | nan => simp [F32.le] at hy
  | ninf =>
    cases y with
    | fin b =>
      simp only [F32.le, decide_eq_true_eq] at hy
      simp only [F32.mul]
      split_ifs with h1 h2
      · left; rfl
      · right; rfl
      · exact absurd (lt_of_le_of_ne hy (Ne.symm h1)) h2
    | pinf => right; rfl
    | ninf => simp [F32.le] at hy
    | nan => simp [F32.le] at hy
  | pinf => simp [F32.le] at hx
  | nan => simp [F32.le] at hx

theorem mul_nan_left (y : F32) : F32.mul F32.nan y = F32.nan := by
  cases y <;> rfl

theorem add_nan_right (x : F32) : F32.add x F32.nan = F32.nan := by
  cases x <;> rfl

theorem add_nan_left (x : F32) : F32.add F32.nan x = F32.nan := by
  cases x <;> rfl

/-- Adding a non-negative value to a value of the format gives no less, or NaN. -/
theorem add_ge32 (a inc : F32) (ha : a.isFloat = true) (hi : F32.le (F32.fin 0) inc = true) :
    F32.add a inc = F32.nan ∨ F32.le a (F32.add a inc) = true := by
  cases a with
  | fin x =>
    have hx : round32 x = F32.fin x := by simpa [F32.isFloat] using ha
    cases inc with
    | fin i =>
      right
      simp only [F32.le, decide_eq_true_eq] at hi
      have := round32_mono x (x + i) (by linarith)
      rwa [hx] at this
    | pinf => right; rfl
    | ninf => simp [F32.le] at hi
    | nan => simp [F32.le] at hi
  | pinf => cases inc <;> simp [F32.le, F32.add] at hi ⊢
  | ninf => cases inc <;> simp [F32.le, F32.add] at hi ⊢
  | nan => left; exact add_nan_left _

/-- Adding a non-positive value to a value of the format gives no more, or NaN. -/
theorem add_le32 (a inc : F32) (ha : a.isFloat = true) (hi : F32.le inc (F32.fin 0) = true) :
    F32.add a inc = F32.nan ∨ F32.le (F32.add a inc) a = true := by
  cases a with
  | fin x =>
    have hx : round32 x = F32.fin x := by simpa [F32.isFloat] using ha
    cases inc with
    | fin i =>
      right
      simp only [F32.le, decide_eq_true_eq] at hi
      have := round32_mono (x + i) x (by linarith)
      rwa [hx] at this
    | ninf => right; rfl
    | pinf => simp [F32.le] at hi
    | nan => simp [F32.le] at hi
  | pinf => cases inc <;> simp [F32.le, F32.add] at hi ⊢
  | ninf => cases inc <;> simp [F32.le, F32.add] at hi ⊢
  | nan => left; exact add_nan_left _

/-- The increment `error * dt * integralGain` of a call with error `>= 0` and
`dt >= 0` is NaN or `>= 0`. -/
theorem increment_nonneg32 (e : F32) (dt : Int) (i : Nat) (he : F32.le (F32.fin 0) e = true)
    (hdt : 0 ≤ dt) :
    F32.mul (F32.mul e (F32.ofInt dt)) (F32.ofNat i) = F32.nan ∨
      F32.le (F32.fin 0) (F32.mul (F32.mul e (F32.ofInt dt)) (F32.ofNat i)) = true := by
  rcases mul_nonneg32 e (F32.ofInt dt) he (ofInt_nonneg dt hdt) with h | h
  · left; rw [h, mul_nan_left]
  · exact mul_nonneg32 _ _ h (ofNat_nonneg i)

theorem increment_nonpos32 (e : F32) (dt : Int) (i : Nat) (he : F32.le e (F32.fin 0) = true)
    (hdt : 0 ≤ dt) :
    F32.mul (F32.mul e (F32.ofInt dt)) (F32.ofNat i) = F32.nan ∨
      F32.le (F32.mul (F32.mul e (F32.ofInt dt)) (F32.ofNat i)) (F32.fin 0) = true := by
  rcases mul_nonpos32 e (F32.ofInt dt) he (ofInt_nonneg dt hdt) with h | h
  · left; rw [h, mul_nan_left]
  · exact mul_nonpos32 _ _ h (ofNat_nonneg i)

theorem clamp32_pinned_upper (v lo hi : F32) (hlh : F32.le lo hi = true)
    (hv : v = F32.nan ∨ F32.le hi v = true) :
    Binary32.clamp v lo hi = hi ∨ Binary32.clamp v lo hi = F32.nan := by
  rcases hv with hv | hv
  · right; rw [hv, clamp32_nan]
  · left
    have h1 := f32_not_lt_of_le lo v (f32_le_trans _ _ _ hlh hv)
    rw [clamp32_eq_chain v lo hi hlh]
    rw [h1]
    cases h2 : F32.lt hi v
    · have := f32_le_of_not_lt hi v (f32_le_ne_nan _ _ hv).1 (f32_le_ne_nan _ _ hv).2 h2
      simpa using f32_le_antisymm _ _ this hv
    · rfl

theorem clamp32_pinned_lower (v lo hi : F32) (hlh : F32.le lo hi = true)
    (hv : v = F32.nan ∨ F32.le v lo = true) :
    Binary32.clamp v lo hi = lo ∨ Binary32.clamp v lo hi = F32.nan := by
  rcases hv with hv | hv
  · right; rw [hv, clamp32_nan]
  · left
    rw [clamp32_eq_chain v lo hi hlh]
    cases h1 : F32.lt v lo
    · have h3 := f32_le_of_not_lt v lo (f32_le_ne_nan _ _ hv).1 (f32_le_ne_nan _ _ hv).2 h1
      have hvl : v = lo := f32_le_antisymm _ _ hv h3
      subst hvl
      have h2 := f32_not_lt_of_le v hi hlh
      simp [h2]
    · rfl

/-- Clamping keeps a lower estimate that is not above the upper bound. -/
theorem le_clamp32 (a v lo hi : F32) (hav : F32.le a v = true) (hah : F32.le a hi = true) :
    F32.le a (Binary32.clamp v lo hi) = true := by
  unfold Binary32.clamp F32.min F32.max
  cases h1 : F32.lt v lo
  · simp only [cond_false]
    cases h2 : F32.lt hi v
    · simpa using hav
    · simpa using hah
  · have hal := f32_le_trans _ _ _ hav (f32_le_of_lt _ _ h1)
    simp only [cond_true]
    cases h2 : F32.lt hi lo
    · simpa using hal
    · simpa using hah

/-- One call with error `>= 0` and `dt >= 0`: the stored accumulator is NaN, or
not below the previous one whenever that is a value of the format not above the
converted upper bound. -/
theorem compute32_nondecreasing (s : Binary32.Pid) (setPoint processVariable : F32)
    (hfl : s.m_IPath.isFloat = true)
    (hup : s.m_IPath = F32.nan ∨ F32.le s.m_IPath (F32.ofInt s.m_upperBound) = true)
    (he : F32.le (F32.fin 0) (Binary32.compute s setPoint processVariable).error = true)
    (hdt : 0 ≤ (Binary32.compute s setPoint processVariable).dt) :
    F32.leOrNaN s.m_IPath (Binary32.compute s setPoint processVariable).self.m_IPath := by
  rw [compute32_iPath]
  rcases hup with hup | hup
  · left
    rw [hup, add_nan_left, clamp32_nan]
  rcases increment_nonneg32 _ _ s.m_IGain he hdt with h | h
  · left
    rw [h, add_nan_right, clamp32_nan]
  · rcases add_ge32 s.m_IPath _ hfl h with h2 | h2
    · left
      rw [h2, clamp32_nan]
    · right
      exact le_clamp32 _ _ _ _ h2 hup

theorem compute32_stays_pinned (s : Binary32.Pid) (setPoint processVariable : F32)
    (h : s.m_lowerBound ≤ s.m_upperBound)
    (hpin : s.m_IPath = F32.ofInt s.m_upperBound ∨ s.m_IPath = F32.nan)
    (he : F32.le (F32.fin 0) (Binary32.compute s setPoint processVariable).error = true)
    (hdt : 0 ≤ (Binary32.compute s setPoint processVariable).dt) :
    (Binary32.compute s setPoint processVariable).self.m_IPath = F32.ofInt s.m_upperBound ∨
      (Binary32.compute s setPoint processVariable).self.m_IPath = F32.nan := by
  rw [compute32_iPath]
  rcases hpin with hpin | hpin
  · refine clamp32_pinned_upper _ _ _ (ofInt_mono _ _ h) ?_
    rcases increment_nonneg32 _ _ s.m_IGain he hdt with h1 | h1
    · left; rw [h1, add_nan_right]
    · have := add_ge32 s.m_IPath _ (by rw [hpin]; exact ofInt_isFloat _) h1
      rw [hpin] at this
      rw [hpin]
      exact this
  · right
    rw [hpin, add_nan_left, clamp32_nan]

theorem compute32_stays_pinned_lower (s : Binary32.Pid) (setPoint processVariable : F32)
    (h : s.m_lowerBound ≤ s.m_upperBound)
    (hpin : s.m_IPath = F32.ofInt s.m_lowerBound)
    (he : F32.le (Binary32.compute s setPoint processVariable).error (F32.fin 0) = true)
    (hdt : 0 ≤ (Binary32.compute s setPoint processVariable).dt) :
    (Binary32.compute s setPoint processVariable).self.m_IPath = F32.ofInt s.m_lowerBound ∨
      (Binary32.compute s setPoint processVariable).self.m_IPath = F32.nan := by
  rw [compute32_iPath]
  refine clamp32_pinned_lower _ _ _ (ofInt_mono _ _ h) ?_
  rcases increment_nonpos32 _ _ s.m_IGain he hdt with h1 | h1
  · left; rw [h1, add_nan_right]
  · have := add_le32 s.m_IPath _ (by rw [hpin]; exact ofInt_isFloat _) h1
    rw [hpin] at this
    rw [hpin]
    exact this

theorem compute32_iPath_isFloat (s : Binary32.Pid) (setPoint processVariable : F32) :
    (Binary32.compute s setPoint processVariable).self.m_IPath.isFloat = true := by
  rw [compute32_iPath]
  exact clamp32_isFloat _ _ _ (add_isFloat _ _) (ofInt_isFloat _) (ofInt_isFloat _)

/-- Successive calls: every stored accumulator is NaN or not above the converted
upper bound; when every call has error `>= 0` and `dt >= 0`, each stored
accumulator is NaN or not below the one before, and an accumulator that starts
at the converted upper bound stays there or becomes NaN. -/
theorem computeSeq32_spec (calls : List Binary32.Call) (self : Binary32.Pid)
    (h : self.m_lowerBound ≤ self.m_upperBound) :
    (Binary32.computeSeq self calls).length = calls.length ∧
    (∀ r ∈ Binary32.computeSeq self calls,
      r.self.m_IPath = F32.nan ∨ F32.le r.self.m_IPath (F32.ofInt self.m_upperBound) = true) ∧
    ((∀ r ∈ Binary32.computeSeq self calls, F32.le (F32.fin 0) r.error = true ∧ 0 ≤ r.dt) →
      List.Chain' F32.leOrNaN ((Binary32.computeSeq self calls).map fun r => r.self.m_IPath) ∧
      (self.m_IPath.isFloat = true →
        (self.m_IPath = F32.nan ∨ F32.le self.m_IPath (F32.ofInt self.m_upperBound) = true) →
        List.Chain F32.leOrNaN self.m_IPath
          ((Binary32.computeSeq self calls).map fun r => r.self.m_IPath)) ∧
      ((self.m_IPath = F32.ofInt self.m_upperBound ∨ self.m_IPath = F32.nan) →
        ∀ r ∈ Binary32.computeSeq self calls,
          r.self.m_IPath = F32.ofInt self.m_upperBound ∨ r.self.m_IPath = F32.nan)) := by
  induction calls generalizing self with
  | nil => simp [Binary32.computeSeq]
  | cons c cs ih =>
    have hup : (Binary32.compute (Binary32.elapse self c.wait) c.setPoint
        c.processVariable).self.m_IPath = F32.nan ∨
        F32.le (Binary32.compute (Binary32.elapse self c.wait) c.setPoint
          c.processVariable).self.m_IPath (F32.ofInt self.m_upperBound) = true := by
      rcases compute32_iPath_within (Binary32.elapse self c.wait) c.setPoint c.processVariable h
        with h1 | h1
      · exact Or.inl h1
      · exact Or.inr h1.2
    obtain ⟨hlen, hall, hchain⟩ := ih (Binary32.compute (Binary32.elapse self c.wait) c.setPoint
      c.processVariable).self h
    refine ⟨by simp only [Binary32.computeSeq, List.length_cons, hlen], ?_, ?_⟩
    · intro x hmem
      rcases List.mem_cons.mp hmem with heq | hmem2
      · rw [heq]; exact hup
      · exact hall x hmem2
    · intro hpos
      have hpos2 : ∀ x ∈ Binary32.computeSeq (Binary32.compute (Binary32.elapse self c.wait)
          c.setPoint c.processVariable).self cs, F32.le (F32.fin 0) x.error = true ∧ 0 ≤ x.dt :=
        fun x hmem => hpos x (List.mem_cons_of_mem _ hmem)
      have hfirst := hpos _ (List.mem_cons_self _ _)
      obtain ⟨-, hch, hpin⟩ := hchain hpos2
      have hch2 := hch (compute32_iPath_isFloat _ _ _) hup
      refine ⟨hch2, ?_, ?_⟩
      · intro hfl hs
        exact List.Chain.cons
          (compute32_nondecreasing (Binary32.elapse self c.wait) _ _ hfl hs hfirst.1 hfirst.2)
          hch2
      · intro hs x hmem
        have hpinned := compute32_stays_pinned (Binary32.elapse self c.wait) c.setPoint
          c.processVariable h hs hfirst.1 hfirst.2
        rcases List.mem_cons.mp hmem with heq | hmem2
        · rw [heq]; exact hpinned
        · exact hpin hpinned x hmem2

/-- C10 (counterexample): in binary32 a pinned accumulator does not stay at the
upper bound. With bounds [-100, 100], integral gain 1, the accumulator at 100 and
`dt = 0`, the call with setpoint 2^127 and process variable -2^127 has error
+infinity (`>= 0`), the increment `inf * 0` is NaN, and the stored accumulator is
NaN, which is not the upper bound and not in order with the previous value. With
bounds [0, 2147483647], integral gain 1 and `dt = 1`, a call with error 2^32
stores 2147483648, the binary32 value of the upper bound, which exceeds the
integer upper bound. -/
theorem pinned_accumulator_becomes_nan :
    ({ Binary32.PID 1 1 0 (-100) 100 (F32.fin 0) true with
        m_IPath := F32.fin 100 } : Binary32.Pid).m_IPath = F32.ofInt 100 ∧
    (Binary32.compute { Binary32.PID 1 1 0 (-100) 100 (F32.fin 0) true with
        m_IPath := F32.fin 100 }
      (F32.fin (2 ^ 127)) (F32.fin (-(2 ^ 127)))).error = F32.pinf ∧
    F32.le (F32.fin 0) F32.pinf = true ∧
    (Binary32.compute { Binary32.PID 1 1 0 (-100) 100 (F32.fin 0) true with
        m_IPath := F32.fin 100 }
      (F32.fin (2 ^ 127)) (F32.fin (-(2 ^ 127)))).dt = 0 ∧
    (Binary32.compute { Binary32.PID 1 1 0 (-100) 100 (F32.fin 0) true with
        m_IPath := F32.fin 100 }
      (F32.fin (2 ^ 127)) (F32.fin (-(2 ^ 127)))).self.m_IPath = F32.nan ∧
    F32.le (F32.fin 100) F32.nan = false ∧
    (Binary32.compute { Binary32.PID 0 1 0 0 2147483647 (F32.fin 0) true with
        m_timer := ⟨true, 1⟩ }
      (F32.fin (2 ^ 32)) (F32.fin 0)).self.m_IPath = F32.fin 2147483648 ∧
    ¬ ((2147483648 : ℚ) ≤ ((2147483647 : Int) : ℚ)) := by
  refine ⟨?_, ?_, rfl, rfl, ?_, rfl, ?_, by norm_num⟩
  · norm_num [Binary32.PID, F32.ofInt, round32_small]
  · norm_num [Binary32.compute, Binary32.PID, f32_eval, f32_eval_inf, round32_pow128]
  · norm_num [Binary32.compute, Binary32.PID, Binary32.computePPath, Binary32.computeIPath,
      Binary32.computeDPathOnPV, Binary32.clamp, F32.min, F32.max, f32_eval, f32_eval_inf, F32.ofInt, F32.ofNat,
      Timer.fresh, Timer.stop, Timer.elapsed_time, round32_zero, round32_one, round32_small,
      round32_pow128]
  · norm_num [Binary32.compute, Binary32.PID, Binary32.computePPath, Binary32.computeIPath,
      Binary32.computeDPathOnPV, Binary32.clamp, F32.min, F32.max, f32_eval, f32_eval_inf, F32.ofInt, F32.ofNat,
      Timer.fresh, Timer.stop, Timer.elapsed_time, round32_zero, round32_one, round32_small,
      round32_pow32, round32_2147483647]

/-- C10 (amended): in binary32, for every controller with
`lowerBound <= upperBound`: a `compute` call with post-deadzone error `>= 0` and
`dt >= 0` made while the accumulator equals `float(upperBound)` leaves it at
`float(upperBound)` or NaN, and one with error `<= 0` and `dt >= 0` made while it
equals `float(lowerBound)` leaves it at `float(lowerBound)` or NaN; along any
sequence of `compute` calls (with waits in between) every stored accumulator is
NaN or at most `float(upperBound)`, and when all errors and `dt` are `>= 0`, in
particular with a constant positive error, each stored accumulator is NaN or at
least the one stored by the call before, NaN or at least the initial accumulator
when that is a binary32 value not above `float(upperBound)`, and
`float(upperBound)` or NaN throughout when it starts there. A bound of magnitude
at most 2^24 is converted exactly. -/
theorem antiwindup32_pinning (s : Binary32.Pid) (h : s.m_lowerBound ≤ s.m_upperBound) :
    (∀ setPoint processVariable,
      (s.m_IPath = F32.ofInt s.m_upperBound →
        F32.le (F32.fin 0) (Binary32.compute s setPoint processVariable).error = true →
        0 ≤ (Binary32.compute s setPoint processVariable).dt →
        (Binary32.compute s setPoint processVariable).self.m_IPath = F32.ofInt s.m_upperBound ∨
          (Binary32.compute s setPoint processVariable).self.m_IPath = F32.nan) ∧
      (s.m_IPath = F32.ofInt s.m_lowerBound →
        F32.le (Binary32.compute s setPoint processVariable).error (F32.fin 0) = true →
        0 ≤ (Binary32.compute s setPoint processVariable).dt →
        (Binary32.compute s setPoint processVariable).self.m_IPath = F32.ofInt s.m_lowerBound ∨
          (Binary32.compute s setPoint processVariable).self.m_IPath = F32.nan)) ∧
    (∀ calls : List Binary32.Call,
      (Binary32.computeSeq s calls).length = calls.length ∧
      (∀ r ∈ Binary32.computeSeq s calls,
        r.self.m_IPath = F32.nan ∨ F32.le r.self.m_IPath (F32.ofInt s.m_upperBound) = true) ∧
      ((∀ r ∈ Binary32.computeSeq s calls, F32.le (F32.fin 0) r.error = true ∧ 0 ≤ r.dt) →
        List.Chain' F32.leOrNaN ((Binary32.computeSeq s calls).map fun r => r.self.m_IPath) ∧
        (s.m_IPath.isFloat = true →
          F32.le s.m_IPath (F32.ofInt s.m_upperBound) = true →
          List.Chain F32.leOrNaN s.m_IPath
            ((Binary32.computeSeq s calls).map fun r => r.self.m_IPath)) ∧
        (s.m_IPath = F32.ofInt s.m_upperBound →
          ∀ r ∈ Binary32.computeSeq s calls,
            r.self.m_IPath = F32.ofInt s.m_upperBound ∨ r.self.m_IPath = F32.nan))) ∧
    (|s.m_lowerBound| ≤ 2 ^ 24 → F32.ofInt s.m_lowerBound = F32.fin (s.m_lowerBound : ℚ)) ∧
    (|s.m_upperBound| ≤ 2 ^ 24 → F32.ofInt s.m_upperBound = F32.fin (s.m_upperBound : ℚ)) := by
  refine ⟨fun setPoint processVariable => ⟨?_, ?_⟩, fun calls => ?_, ofInt_exact _, ofInt_exact _⟩
  · intro hpin he hdt
    exact compute32_stays_pinned s _ _ h (Or.inl hpin) he hdt
  · intro hpin he hdt
    exact compute32_stays_pinned_lower s _ _ h hpin he hdt
  · obtain ⟨hlen, hall, hchain⟩ := computeSeq32_spec calls s h
    refine ⟨hlen, hall, fun hpos => ?_⟩
    obtain ⟨h1, h2, h3⟩ := hchain hpos
    exact ⟨h1, fun hfl hs => h2 hfl (Or.inr hs), fun hs => h3 (Or.inl hs)⟩

theorem antiwindup32_pinning_witness :
    ({ Binary32.PID 1 2 0 (-10) 10 (F32.fin 0) true with
        m_IPath := F32.fin 10, m_timer := ⟨true, 3⟩ } : Binary32.Pid).m_lowerBound
      ≤ ({ Binary32.PID 1 2 0 (-10) 10 (F32.fin 0) true with
        m_IPath := F32.fin 10, m_timer := ⟨true, 3⟩ } : Binary32.Pid).m_upperBound ∧
    F32.le (F32.fin 0) (Binary32.compute { Binary32.PID 1 2 0 (-10) 10 (F32.fin 0) true with
        m_IPath := F32.fin 10, m_timer := ⟨true, 3⟩ } (F32.fin 5) (F32.fin 0)).error = true ∧
    (0 : Int) ≤ (Binary32.compute { Binary32.PID 1 2 0 (-10) 10 (F32.fin 0) true with
        m_IPath := F32.fin 10, m_timer := ⟨true, 3⟩ } (F32.fin 5) (F32.fin 0)).dt ∧
    ((Binary32.compute { Binary32.PID 1 2 0 (-10) 10 (F32.fin 0) true with
        m_IPath := F32.fin 10, m_timer := ⟨true, 3⟩ } (F32.fin 5) (F32.fin 0)).self.m_IPath
        = F32.ofInt 10 ∨
      (Binary32.compute { Binary32.PID 1 2 0 (-10) 10 (F32.fin 0) true with
        m_IPath := F32.fin 10, m_timer := ⟨true, 3⟩ } (F32.fin 5) (F32.fin 0)).self.m_IPath
        = F32.nan) ∧
    (Binary32.computeSeq { Binary32.PID 1 2 0 (-10) 10 (F32.fin 0) true with
        m_IPath := F32.fin 10, m_timer := ⟨true, 3⟩ }
      [⟨1, F32.fin 5, F32.fin 0⟩, ⟨2, F32.fin 5, F32.fin 0⟩]).length = 2 := by
  have he : F32.le (F32.fin 0) (Binary32.compute { Binary32.PID 1 2 0 (-10) 10 (F32.fin 0) true with
        m_IPath := F32.fin 10, m_timer := ⟨true, 3⟩ } (F32.fin 5) (F32.fin 0)).error = true := by
    norm_num [Binary32.compute, Binary32.PID, f32_eval, f32_eval_inf, round32_small]
  have hpin : ({ Binary32.PID 1 2 0 (-10) 10 (F32.fin 0) true with
        m_IPath := F32.fin 10, m_timer := ⟨true, 3⟩ } : Binary32.Pid).m_IPath = F32.ofInt 10 := by
    norm_num [Binary32.PID, F32.ofInt, round32_small]
  obtain ⟨hone, hseq, -⟩ := antiwindup32_pinning
    { Binary32.PID 1 2 0 (-10) 10 (F32.fin 0) true with
        m_IPath := F32.fin 10, m_timer := ⟨true, 3⟩ } (by decide)
  exact ⟨by decide, he, by decide, (hone (F32.fin 5) (F32.fin 0)).1 hpin he (by decide),
    (hseq [⟨1, F32.fin 5, F32.fin 0⟩, ⟨2, F32.fin 5, F32.fin 0⟩]).1⟩

/-! ## Order in the setpoint, in binary32 -/

theorem round32_le_pinf (q : ℚ) : F32.le (round32 q) F32.pinf = true := by
  unfold round32
  split_ifs <;> rfl

theorem ninf_le_round32 (q : ℚ) : F32.le F32.ninf (round32 q) = true := by
  unfold round32
  split_ifs <;> rfl

/-- The `<=` of `float` on each pair of kinds of operands, as rewriting rules. -/
theorem f32_le_eval :
    (∀ a b : ℚ, F32.le (F32.fin a) (F32.fin b) = decide (a ≤ b)) ∧
    (∀ a : ℚ, F32.le (F32.fin a) F32.pinf = true) ∧
    (∀ a : ℚ, F32.le (F32.fin a) F32.ninf = false) ∧
    (∀ a : ℚ, F32.le F32.pinf (F32.fin a) = false) ∧
    (∀ a : ℚ, F32.le F32.ninf (F32.fin a) = true) ∧
    F32.le F32.ninf F32.pinf = true ∧
    F32.le F32.pinf F32.pinf = true ∧
    F32.le F32.ninf F32.ninf = true ∧
    F32.le F32.pinf F32.ninf = false ∧
    (∀ x : F32, F32.le F32.nan x = false) ∧
    (∀ x : F32, F32.le x F32.nan = false) := by
  refine ⟨fun _ _ => rfl, fun _ => rfl, fun _ => rfl, fun _ => rfl, fun _ => rfl, rfl, rfl, rfl,
    rfl, ?_, ?_⟩
  · intro x; cases x <;> rfl
  · intro x; cases x <;> rfl

theorem ordered_refl (x : F32) : F32.ordered x x := by
  cases x with
  | nan => exact Or.inl rfl
  | fin a => exact Or.inr (Or.inr (f32_le_refl _ (by simp)))
  | pinf => exact Or.inr (Or.inr rfl)
  | ninf => exact Or.inr (Or.inr rfl)

theorem sub_mono32 (a b pv : F32) (h : F32.ordered a b) :
    F32.ordered (F32.sub a pv) (F32.sub b pv) := by
  unfold F32.ordered at *
  cases a <;> cases b <;> cases pv <;>
    simp [f32_le_eval, F32.sub, round32_le_pinf, ninf_le_round32, round32_ne_nan] at h ⊢
  exact round32_mono _ _ (by linarith)

theorem mul_comm32 (x y : F32) : F32.mul x y = F32.mul y x := by
  cases x <;> cases y <;> simp [F32.mul, mul_comm]

/-- Multiplication by a value `>= 0` keeps the order, NaN apart. -/
theorem mul_mono32 (x y g : F32) (hg : F32.le (F32.fin 0) g = true) (h : F32.ordered x y) :
    F32.ordered (F32.mul x g) (F32.mul y g) := by
  unfold F32.ordered at *
  cases g with
  | fin c =>
    have hc : 0 ≤ c := by simpa [f32_le_eval] using hg
    rcases eq_or_lt_of_le hc with h0 | h0
    · subst h0
      cases x <;> cases y <;>
        simp [f32_le_eval, F32.mul, round32_le_pinf, ninf_le_round32, round32_ne_nan] at h ⊢
      exact f32_le_refl _ (round32_ne_nan _)
    · cases x <;> cases y <;>
        simp [f32_le_eval, F32.mul, round32_le_pinf, ninf_le_round32, round32_ne_nan, h0,
          ne_of_gt h0] at h ⊢
      exact round32_mono _ _ (mul_le_mul_of_nonneg_right h hc)
  | pinf =>
    cases x with
    | fin a =>
      cases y with
      | fin b =>
        have hab : a ≤ b := by simpa [f32_le_eval] using h
        simp only [F32.mul]
        split_ifs <;> simp [f32_le_eval]
        linarith
      | pinf => simp only [F32.mul]; split_ifs <;> simp [f32_le_eval]
      | ninf => simp [f32_le_eval] at h
      | nan => right; left; rfl
    | pinf =>
      cases y with
      | fin b => simp [f32_le_eval] at h
      | pinf => right; right; rfl
      | ninf => simp [f32_le_eval] at h
      | nan => right; left; rfl
    | ninf =>
      cases y with
      | fin b => simp only [F32.mul]; split_ifs <;> simp [f32_le_eval]
      | pinf => right; right; rfl
      | ninf => right; right; rfl
      | nan => right; left; rfl
    | nan => left; rfl
  | ninf => simp [f32_le_eval] at hg
  | nan => simp [f32_le_eval] at hg

/-- Division by a value `>= 1` keeps the order, NaN apart. -/
theorem div_mono32 (x y c : F32) (hc : F32.le (F32.fin 1) c = true) (h : F32.ordered x y) :
    F32.ordered (F32.div x c) (F32.div y c) := by
  unfold F32.ordered at *
  cases c with
  | fin d =>
    have hd : 1 ≤ d := by simpa [f32_le_eval] using hc
    have hd0 : 0 < d := by linarith
    cases x <;> cases y <;>
      simp [f32_le_eval, F32.div, round32_le_pinf, ninf_le_round32, round32_ne_nan, hd0,
        ne_of_gt hd0, le_of_lt hd0] at h ⊢
    exact round32_mono _ _ (div_le_div_of_nonneg_right h (le_of_lt hd0))
  | pinf => cases x <;> cases y <;> simp [f32_le_eval, F32.div] at h ⊢
  | ninf => simp [f32_le_eval] at hc
  | nan => simp [f32_le_eval] at hc

/-- The deadzone step keeps the order, NaN apart, whatever the deadzone. -/
theorem deadzone_mono32 (x y dz : F32) (h : F32.ordered x y) :
    F32.ordered (bif F32.lt (F32.abs x) dz then F32.fin 0 else x)
      (bif F32.lt (F32.abs y) dz then F32.fin 0 else y) := by
  unfold F32.ordered at *
  cases dz with
  | fin d =>
    cases x with
    | fin a =>
      cases y with
      | fin b =>
        have hab : a ≤ b := by simpa [f32_le_eval] using h
        simp only [F32.abs, F32.lt, Bool.cond_decide]
        have ha := abs_nonneg a
        have hb := abs_nonneg b
        split_ifs with h1 h2 h2 <;> simp [f32_le_eval]
        · have := abs_lt.mp h1
          rcases le_abs.mp (not_lt.mp h2) with h3 | h3 <;> linarith
        · have := abs_lt.mp h2
          rcases le_abs.mp (not_lt.mp h1) with h3 | h3 <;> linarith
        · exact hab
      | pinf =>
        simp only [F32.abs, F32.lt, Bool.cond_decide]
        split_ifs <;> simp [f32_le_eval]
      | ninf => simp [f32_le_eval] at h
      | nan => right; left; rfl
    | pinf => cases y <;> simp [f32_le_eval, F32.abs, F32.lt] at h ⊢
    | ninf =>
      cases y with
      | fin b =>
        simp only [F32.abs, F32.lt, Bool.cond_decide]
        split_ifs <;> simp [f32_le_eval]
      | pinf => simp [f32_le_eval, F32.abs, F32.lt]
      | ninf => simp [f32_le_eval, F32.abs, F32.lt]
      | nan => right; left; rfl
    | nan => left; rfl
  | pinf => cases x <;> cases y <;> simp [f32_le_eval, F32.abs, F32.lt] at h ⊢
  | ninf =>
    cases x <;> cases y <;> simp [f32_le_eval, F32.abs, F32.lt] at h ⊢
    exact h
  | nan =>
    cases x <;> cases y <;> simp [f32_le_eval, F32.abs, F32.lt] at h ⊢
    exact h

/-- Addition keeps the order in both operands, NaN apart. -/
theorem add_mono32 (x1 x2 y1 y2 : F32) (hx : F32.ordered x1 x2) (hy : F32.ordered y1 y2) :
    F32.ordered (F32.add x1 y1) (F32.add x2 y2) := by
  unfold F32.ordered at *
  cases x1 <;> cases x2 <;> simp [f32_le_eval] at hx <;> cases y1 <;> cases y2 <;>
    simp [f32_le_eval, F32.add, round32_le_pinf, ninf_le_round32, round32_ne_nan] at hy ⊢
  exact round32_mono _ _ (by linarith)

/-- The clamp keeps the order, NaN apart. -/
theorem clamp_mono32 (x y lo hi : F32) (hlh : F32.le lo hi = true) (h : F32.ordered x y) :
    F32.ordered (Binary32.clamp x lo hi) (Binary32.clamp y lo hi) := by
  rcases h with h | h | h
  · left; rw [h, clamp32_nan]
  · right; left; rw [h, clamp32_nan]
  right; right
  have hlo := (f32_le_ne_nan _ _ hlh).1
  have hhi := (f32_le_ne_nan _ _ hlh).2
  have hx := (f32_le_ne_nan _ _ h).1
  have hy := (f32_le_ne_nan _ _ h).2
  rw [clamp32_eq_chain x lo hi hlh, clamp32_eq_chain y lo hi hlh]
  cases h1 : F32.lt x lo
  · have hlx := f32_le_of_not_lt x lo hx hlo h1
    have h3 := f32_not_lt_of_le lo y (f32_le_trans _ _ _ hlx h)
    rw [h3]
    cases h2 : F32.lt hi x
    · have hxh := f32_le_of_not_lt hi x hhi hx h2
      cases h4 : F32.lt hi y
      · simpa using h
      · simpa using hxh
    · cases h4 : F32.lt hi y
      · have hyh := f32_le_of_not_lt hi y hhi hy h4
        have := f32_not_lt_of_le x hi (f32_le_trans _ _ _ h hyh)
        rw [this] at h2
        exact absurd h2 (by simp)
      · simpa using f32_le_refl hi hhi
  · cases h3 : F32.lt y lo
    · have hly := f32_le_of_not_lt y lo hy hlo h3
      cases h4 : F32.lt hi y
      · simpa using hly
      · simpa using hlh
    · simpa using f32_le_refl lo hlo

theorem compute32_error_eq (s : Binary32.Pid) (setPoint processVariable : F32) :
    (Binary32.compute s setPoint processVariable).error =
      (bif F32.lt (F32.abs (F32.sub setPoint processVariable)) s.m_deadzone then F32.fin 0
        else F32.sub setPoint processVariable) := rfl

theorem compute32_dPath_eq (s : Binary32.Pid) (setPoint processVariable : F32) :
    (Binary32.compute s setPoint processVariable).dPath =
      (if s.m_antiKickback then
        (if s.m_timer.time ≠ 0 then
          F32.div (F32.mul (F32.ofNat s.m_DGain)
            (F32.sub (Binary32.compute s setPoint processVariable).error s.m_pastPV))
            (F32.ofInt s.m_timer.time)
        else F32.fin 0)
      else
        (if s.m_timer.time ≠ 0 then
          F32.div (F32.mul (F32.ofNat s.m_DGain) (F32.sub processVariable s.m_pastError))
            (F32.ofInt s.m_timer.time)
        else F32.fin 0)) := rfl

theorem div_ninf_nonneg (b : ℚ) (hb : 0 ≤ b) : F32.div F32.ninf (F32.fin b) = F32.ninf := by
  simp [F32.div, hb]

/-- C19 (counterexample): in binary32 the output is not ordered in the setpoint.
The controller has gains P=4, I=0, D=4, bounds [-100, 100], deadzone 0,
anti-kickback on, previous process variable 2^127 and `dt = 1`; the process
variable is 0. With setpoint 0 the derivative summand is `4 * (0 - 2^127)`,
which overflows to -infinity, and the call returns -100. With the larger
setpoint 2^126 the proportional summand `2^126 * 4` overflows to +infinity, the
derivative summand to -infinity, their sum is NaN, and the call returns NaN,
which is not `>=` -100. -/
theorem setPoint_order_lost_at_overflow :
    F32.le (F32.fin 0) (F32.fin 85070591730234615865843651857942052864) = true ∧
    (Binary32.compute { Binary32.PID 4 0 4 (-100) 100 (F32.fin 0) true with
        m_pastPV := F32.fin 170141183460469231731687303715884105728, m_timer := ⟨true, 1⟩ }
      (F32.fin 0) (F32.fin 0)).paths = F32.fin (-100) ∧
    (Binary32.compute { Binary32.PID 4 0 4 (-100) 100 (F32.fin 0) true with
        m_pastPV := F32.fin 170141183460469231731687303715884105728, m_timer := ⟨true, 1⟩ }
      (F32.fin 85070591730234615865843651857942052864) (F32.fin 0)).paths = F32.nan ∧
    F32.le (F32.fin (-100)) F32.nan = false := by
  refine ⟨?_, ?_, ?_, rfl⟩
  · norm_num [f32_eval]
  · norm_num [Binary32.compute, Binary32.PID, Binary32.computePPath, Binary32.computeIPath,
      Binary32.computeDPathOnPV, Binary32.clamp, F32.min, F32.max, f32_eval, f32_eval_inf, F32.ofInt, F32.ofNat,
      Timer.fresh, Timer.stop, Timer.elapsed_time, round32_zero, round32_one, round32_small,
      round32_pow127, round32_pow129, div_ninf_nonneg]
  · norm_num [Binary32.compute, Binary32.PID, Binary32.computePPath, Binary32.computeIPath,
      Binary32.computeDPathOnPV, Binary32.clamp, F32.min, F32.max, f32_eval, f32_eval_inf, F32.ofInt, F32.ofNat,
      Timer.fresh, Timer.stop, Timer.elapsed_time, round32_zero, round32_one, round32_small,
      round32_pow126, round32_pow128, div_ninf_nonneg]

/-- C19 (amended): in binary32, for every controller state with
`lowerBound <= upperBound` (whatever its deadzone, in both anti-kickback modes),
every process variable, every timer reading `dt >= 0` and all setpoints
`a <= b`: the post-deadzone errors of `compute(a, processVariable)` and
`compute(b, processVariable)` from that state are in order unless one of them is
NaN, and the returned values are in order unless one of them is NaN. -/
theorem compute32_monotone_in_setPoint (s : Binary32.Pid) (processVariable a b : F32)
    (h : s.m_lowerBound ≤ s.m_upperBound) (hdt : 0 ≤ s.m_timer.elapsed_time)
    (hab : F32.le a b = true) :
    F32.ordered (Binary32.compute s a processVariable).error
        (Binary32.compute s b processVariable).error ∧
      F32.ordered (Binary32.compute s a processVariable).paths
        (Binary32.compute s b processVariable).paths := by
  have hdt2 : 0 ≤ s.m_timer.time := hdt
  have hb := ofInt_mono _ _ h
  have he : F32.ordered (Binary32.compute s a processVariable).error
      (Binary32.compute s b processVariable).error := by
    rw [compute32_error_eq, compute32_error_eq]
    exact deadzone_mono32 _ _ _ (sub_mono32 _ _ _ (Or.inr (Or.inr hab)))
  refine ⟨he, ?_⟩
  rw [compute32_paths, compute32_paths]
  refine clamp_mono32 _ _ _ _ hb (add_mono32 _ _ _ _ (add_mono32 _ _ _ _ ?_ ?_) ?_)
  · rw [compute32_pPath_eq, compute32_pPath_eq]
    exact mul_mono32 _ _ _ (ofNat_nonneg _) he
  · rw [compute32_iPath_eq, compute32_iPath_eq]
    exact clamp_mono32 _ _ _ _ hb (add_mono32 _ _ _ _ (ordered_refl _)
      (mul_mono32 _ _ _ (ofNat_nonneg _) (mul_mono32 _ _ _ (ofInt_nonneg _ hdt2) he)))
  · rw [compute32_dPath_eq, compute32_dPath_eq]
    split_ifs with hk h0
    · have hpos : 0 < s.m_timer.time := lt_of_le_of_ne hdt2 (Ne.symm h0)
      refine div_mono32 _ _ _ (ofInt_pos _ hpos) ?_
      rw [mul_comm32 _ (F32.sub (Binary32.compute s a processVariable).error _),
        mul_comm32 _ (F32.sub (Binary32.compute s b processVariable).error _)]
      exact mul_mono32 _ _ _ (ofNat_nonneg _) (sub_mono32 _ _ _ he)
    · exact ordered_refl _
    · exact ordered_refl _
    · exact ordered_refl _

theorem compute32_monotone_in_setPoint_witness :
    ({ Binary32.PID 2 1 3 (-50) 50 (F32.fin 1) false with
        m_IPath := F32.fin 5, m_timer := ⟨true, 2⟩ } : Binary32.Pid).m_lowerBound
      ≤ ({ Binary32.PID 2 1 3 (-50) 50 (F32.fin 1) false with
        m_IPath := F32.fin 5, m_timer := ⟨true, 2⟩ } : Binary32.Pid).m_upperBound ∧
    0 ≤ ({ Binary32.PID 2 1 3 (-50) 50 (F32.fin 1) false with
        m_IPath := F32.fin 5, m_timer := ⟨true, 2⟩ } : Binary32.Pid).m_timer.elapsed_time ∧
    F32.le (F32.fin 3) (F32.fin 4) = true ∧
    F32.ordered
      (Binary32.compute { Binary32.PID 2 1 3 (-50) 50 (F32.fin 1) false with
        m_IPath := F32.fin 5, m_timer := ⟨true, 2⟩ } (F32.fin 3) (F32.fin 1)).paths
      (Binary32.compute { Binary32.PID 2 1 3 (-50) 50 (F32.fin 1) false with
        m_IPath := F32.fin 5, m_timer := ⟨true, 2⟩ } (F32.fin 4) (F32.fin 1)).paths :=
  ⟨by decide, by decide, by norm_num [f32_eval],
    (compute32_monotone_in_setPoint
      { Binary32.PID 2 1 3 (-50) 50 (F32.fin 1) false with
        m_IPath := F32.fin 5, m_timer := ⟨true, 2⟩ } (F32.fin 1) (F32.fin 3) (F32.fin 4)
      (by decide) (by decide) (by norm_num [f32_eval])).2⟩

end PID
